import Mathlib

/-!
# CDI cache: registry refresh, device injection, listings and directory watch

A shallow embedding of `pkg/cdi/cache.go` (the Container Device Interface cache
vendored by podman).  Go maps are association lists with unique keys, Go slices
are lists (`nil` is `[]`), `*Spec` identity is an explicit address, and the
filesystem (what the directory scan delivers, what `watcher.Add` answers) is an
explicit environment.
-/

namespace CDI

/-! ## Data model -/

/-- A Go `map[string]V`: an association list with unique keys.  The order of the
entries is the order in which a `range` loop happens to visit them. -/
abbrev GoMap (V : Type) := AList (fun _ : String => V)

/-- A mount of the runtime specification. -/
structure Mount where
  hostPath : String
  containerPath : String
deriving DecidableEq, Repr

/-- A device node of the runtime specification. -/
structure DeviceNode where
  path : String
deriving DecidableEq, Repr

/-- A lifecycle hook of the runtime specification. -/
structure Hook where
  hookName : String
  path : String
deriving DecidableEq, Repr

/-- Modelled from the spec: the type `ContainerEdits` (declared outside `cache.go`):
an ordered aggregate of environment-variable assignments, device nodes, hooks and
mounts. -/
structure ContainerEdits where
  env : List String
  deviceNodes : List DeviceNode
  hooks : List Hook
  mounts : List Mount
deriving DecidableEq, Repr

/-- The changeset `&ContainerEdits{}`. -/
def ContainerEdits.empty : ContainerEdits := ⟨[], [], [], []⟩

/-- Modelled from the spec: `ContainerEdits.Append` (declared outside `cache.go`):
every category of the other changeset is appended to the same category of this one. -/
def ContainerEdits.Append (e o : ContainerEdits) : ContainerEdits :=
  { env := e.env ++ o.env
    deviceNodes := e.deviceNodes ++ o.deviceNodes
    hooks := e.hooks ++ o.hooks
    mounts := e.mounts ++ o.mounts }

/-- One device entry as a descriptor file declares it: its qualified name
(`vendor/class=name`, what `GetQualifiedName` returns) and its device-level edits. -/
structure DeviceEntry where
  qualifiedName : String
  edits : ContainerEdits
deriving DecidableEq, Repr

/-- Modelled from the spec: the type `Spec` (declared outside `cache.go`), one parsed
descriptor file.  `addr` is the identity of the `*Spec` pointer. -/
structure Spec where
  addr : Nat
  vendor : String
  cls : String
  path : String
  priority : Int
  edits : ContainerEdits
  devices : List DeviceEntry
deriving DecidableEq, Repr

/-- A `*Device`: the declared entry together with the back-reference `GetSpec()`. -/
structure Device where
  entry : DeviceEntry
  spec : Spec
deriving DecidableEq, Repr

/-- Accessor `dev.GetQualifiedName()`. -/
def Device.GetQualifiedName (d : Device) : String := d.entry.qualifiedName

/-- Accessor `dev.GetSpec()`. -/
def Device.GetSpec (d : Device) : Spec := d.spec

/-- Accessor `dev.edits()`. -/
def Device.edits (d : Device) : ContainerEdits := d.entry.edits

/-- Accessor `spec.GetPriority()`. -/
def Spec.GetPriority (s : Spec) : Int := s.priority

/-- Accessor `spec.GetPath()`. -/
def Spec.GetPath (s : Spec) : String := s.path

/-- Accessor `spec.GetVendor()`. -/
def Spec.GetVendor (s : Spec) : String := s.vendor

/-- Accessor `spec.GetClass()`. -/
def Spec.GetClass (s : Spec) : String := s.cls

/-- The error values `cache.go` creates.  `conflict` is
`"conflicting device %q (specs %q, %q)"`, `unresolvable` carries the text that
follows `"unresolvable CDI devices "`. -/
inductive Error where
  | conflict (name devPath oldPath : String)
  | loadFailed (cause : String)
  | monitorFailed (cause : String)
  | watcherFailed (cause : String)
  | directoryRemoved
  | nilOCISpec
  | unresolvable (listed : String)
  | injectFailed (cause : String)
  | noSpecDirs
deriving DecidableEq, Repr

/-- One invocation of the callback of `scanSpecDirs`: `(path, priority, spec, err)`
with either a parsed descriptor or a load error. -/
inductive ScanEntry where
  | loaded (path : String) (priority : Int) (spec : Spec)
  | failed (path : String) (priority : Int) (err : String)
deriving DecidableEq, Repr

/-- The filesystem as the cache sees it during one operation. -/
structure Env where
  /-- the callback invocations `scanSpecDirs(c.specDirs, ...)` makes, in order -/
  scan : List ScanEntry
  /-- the answer of `watcher.Add(dir)`: `none` is success, `some msg` an error -/
  watchAdd : String → Option String
  /-- the library function `filepath.Clean` -/
  clean : String → String

/-- The fsnotify helper wrapper: `tracked` maps a directory to "currently watched". -/
structure Watch where
  tracked : GoMap Bool

/-- The cache. -/
structure Cache where
  specDirs : List String
  specs : GoMap (List Spec)
  devices : GoMap Device
  errors : GoMap (List Error)
  dirErrors : GoMap Error
  autoRefresh : Bool
  watch : Watch

/-- The value `m[k]` of a map of slices: the empty slice when the key is absent. -/
def getSlice {V : Type} (m : GoMap (List V)) (k : String) : List V :=
  (m.lookup k).getD []

/-! ## refresh -/

/-- The local variables of `refresh`. -/
structure RefreshState where
  specs : GoMap (List Spec)
  devices : GoMap Device
  conflicts : GoMap Unit
  specErrors : GoMap (List Error)
  result : List Error

/-- The initial values of the local variables of `refresh`. -/
def RefreshState.init : RefreshState := ⟨∅, ∅, ∅, ∅, []⟩

/-- The body of the loop `for _, path := range paths` of `collectError`. -/
def recordAt (err : Error) (s : RefreshState) (path : String) : RefreshState :=
  { s with specErrors := s.specErrors.insert path (getSlice s.specErrors path ++ [err]) }

/-- The closure `collectError`: the error is collected once globally and once per path. -/
def collectError (st : RefreshState) (err : Error) (paths : List String) : RefreshState :=
  paths.foldl (recordAt err) { st with result := st.result ++ [err] }

/-- The closure `resolveConflict`: the new state and the returned flag
(`true`: keep the old device). -/
def resolveConflict (st : RefreshState) (name : String) (dev old : Device) : RefreshState × Bool :=
  let devSpec := dev.GetSpec
  let oldSpec := old.GetSpec
  let devPrio := devSpec.GetPriority
  let oldPrio := oldSpec.GetPriority
  if devPrio > oldPrio then (st, false)
  else if devPrio = oldPrio then
    let devPath := devSpec.GetPath
    let oldPath := oldSpec.GetPath
    let st1 := collectError st (Error.conflict name devPath oldPath) [devPath, oldPath]
    ({ st1 with conflicts := st1.conflicts.insert name () }, true)
  else (st, true)

/-- The body of the loop `for _, dev := range spec.devices` of the scan callback. -/
def addDevice (spec : Spec) (st : RefreshState) (de : DeviceEntry) : RefreshState :=
  let dev : Device := ⟨de, spec⟩
  let qualified := dev.GetQualifiedName
  match st.devices.lookup qualified with
  | some other =>
    let r := resolveConflict st qualified dev other
    if r.2 then r.1 else { r.1 with devices := r.1.devices.insert qualified dev }
  | none => { st with devices := st.devices.insert qualified dev }

/-- The statements `vendor := spec.GetVendor(); specs[vendor] = append(specs[vendor], spec)`
of the scan callback. -/
def recordSpec (st : RefreshState) (spec : Spec) : RefreshState :=
  let vendor := spec.GetVendor
  { st with specs := st.specs.insert vendor (getSlice st.specs vendor ++ [spec]) }

/-- The callback `refresh` passes to `scanSpecDirs`. -/
def scanCallback (clean : String → String) (st : RefreshState) : ScanEntry → RefreshState
  | ScanEntry.failed path _ err => collectError st (Error.loadFailed err) [clean path]
  | ScanEntry.loaded _ _ spec => spec.devices.foldl (addDevice spec) (recordSpec st spec)

/-- The local variables of `refresh` when the scan is over. -/
def scanAll (env : Env) : RefreshState :=
  env.scan.foldl (scanCallback env.clean) RefreshState.init

/-- The loop `for conflict := range conflicts { delete(devices, conflict) }`. -/
def dropConflicts (devices : GoMap Device) (conflicts : List String) : GoMap Device :=
  conflicts.foldl (fun m k => m.erase k) devices

/-- The method `Cache.refresh`: the new cache and the returned aggregate
(`none` is `nil`, `some errs` a multi-error holding `errs`). -/
def Cache.refresh (env : Env) (c : Cache) : Cache × Option (List Error) :=
  let st := scanAll env
  let devices := dropConflicts st.devices st.conflicts.keys
  ({ c with specs := st.specs, devices := devices, errors := st.specErrors },
   if st.result.length > 0 then some st.result else none)

/-! ## The directory watch -/

/-- The variables `w.tracked`, `dirErrors` and `update` of `watch.update`. -/
structure UpdateState where
  tracked : GoMap Bool
  dirErrors : GoMap Error
  update : Bool

/-- The body of the loop `for dir, ok = range w.tracked` of `watch.update`. -/
def updateDir (add : String → Option String) (st : UpdateState)
    (e : Sigma (fun _ : String => Bool)) : UpdateState :=
  if e.2 then st
  else
    match add e.1 with
    | none =>
      { tracked := st.tracked.insert e.1 true, dirErrors := st.dirErrors.erase e.1, update := true }
    | some msg =>
      { tracked := st.tracked.insert e.1 false
        dirErrors := st.dirErrors.insert e.1 (Error.monitorFailed msg)
        update := st.update }

/-- The body of the loop `for _, dir = range removed` of `watch.update`. -/
def removeDir (st : UpdateState) (dir : String) : UpdateState :=
  { tracked := st.tracked.insert dir false
    dirErrors := st.dirErrors.insert dir Error.directoryRemoved
    update := true }

/-- The method `watch.update(dirErrors, removed...)`, the watcher being created. -/
def Watch.update (add : String → Option String) (w : Watch) (dirErrors : GoMap Error)
    (removed : List String) : UpdateState :=
  removed.foldl removeDir
    (w.tracked.entries.foldl (updateDir add) { tracked := w.tracked, dirErrors := dirErrors, update := false })

/-- The method `Cache.refreshIfRequired`: the new cache, `refreshed` and the error. -/
def Cache.refreshIfRequired (env : Env) (c : Cache) (force : Bool) :
    Cache × Bool × Option (List Error) :=
  if force then
    let r := c.refresh env
    (r.1, true, r.2)
  else if c.autoRefresh then
    let u := c.watch.update env.watchAdd c.dirErrors []
    let c1 := { c with watch := { tracked := u.tracked }, dirErrors := u.dirErrors }
    if u.update then
      let r := c1.refresh env
      (r.1, true, r.2)
    else (c1, false, none)
  else (c, false, none)

/-- The method `Cache.GetDevice`: the new cache and the device (`none` is `nil`). -/
def Cache.GetDevice (env : Env) (c : Cache) (device : String) : Cache × Option Device :=
  let c1 := (c.refreshIfRequired env false).1
  (c1, c1.devices.lookup device)

/-- A filesystem event of fsnotify: the file name and the bit set of operations. -/
structure Event where
  name : String
  op : Nat

/-- Operation bit `fsnotify.Create`. -/
def opCreate : Nat := 1
/-- Operation bit `fsnotify.Write`. -/
def opWrite : Nat := 2
/-- Operation bit `fsnotify.Remove`. -/
def opRemove : Nat := 4
/-- Operation bit `fsnotify.Rename`. -/
def opRename : Nat := 8
/-- Operation bit `fsnotify.Chmod`. -/
def opChmod : Nat := 16

/-- The loop of `filepath.Ext`, over the reversed path: stop at a separator, return
the suffix from the last dot on. -/
def extLoop : List Char → List Char → List Char
  | [], _ => []
  | ch :: rest, acc =>
    if ch = '/' then []
    else if ch = '.' then ch :: acc
    else extLoop rest (ch :: acc)

/-- The library function `filepath.Ext`. -/
def filepathExt (path : String) : String := String.mk (extLoop path.data.reverse [])

/-- The two guards at the head of the event branch of `watch.watch`: `false` is `continue`. -/
def relevantEvent (ev : Event) : Bool :=
  if (ev.op &&& (opRename ||| opRemove ||| opWrite)) = 0 then false
  else if ev.op = opWrite ∧ filepathExt ev.name ≠ ".json" ∧ filepathExt ev.name ≠ ".yaml" then false
  else true

/-- One iteration of the loop of `watch.watch` on a received event (`dirErrors` is the
cache's map, `refresh` the cache's method): `none` when the event is skipped. -/
def Cache.watchEvent (env : Env) (c : Cache) (ev : Event) : Option Cache :=
  if relevantEvent ev then
    let removed :=
      if ev.op = opRemove ∧ c.watch.tracked.lookup ev.name = some true then [ev.name] else []
    let u := c.watch.update env.watchAdd c.dirErrors removed
    let c1 := { c with watch := { tracked := u.tracked }, dirErrors := u.dirErrors }
    some (c1.refresh env).1
  else none

/-! ## Injection -/

/-- Modelled from the spec: the runtime specification `oci.Spec` (declared outside
`cache.go`), as far as edits touch it. -/
structure OCISpec where
  env : List String
  devices : List DeviceNode
  hooks : List Hook
  mounts : List Mount
deriving DecidableEq, Repr

/-- The key of an environment assignment `KEY=VALUE`. -/
def envKey (s : String) : String := String.mk (s.data.takeWhile (fun ch => ch != '='))

/-- Modelled from the spec: one environment assignment is applied with last write wins
per key, in append order otherwise. -/
def addEnv (env : List String) (kv : String) : List String :=
  if env.any (fun e => envKey e == envKey kv) then
    env.map (fun e => if envKey e == envKey kv then kv else e)
  else env ++ [kv]

/-- Modelled from the spec: `ContainerEdits.Apply` (declared outside `cache.go`): it
fails on an absent specification; otherwise environment variables are written with last
write wins per key and mounts, device nodes and hooks are appended without deduplication. -/
def ContainerEdits.Apply (e : ContainerEdits) : Option OCISpec → Except String OCISpec
  | none => Except.error "can't edit nil OCI Spec"
  | some spec =>
    Except.ok
      { env := e.env.foldl addEnv spec.env
        devices := spec.devices ++ e.deviceNodes
        hooks := spec.hooks ++ e.hooks
        mounts := spec.mounts ++ e.mounts }

/-- Accessor `spec.edits()`. -/
def Spec.getEdits (s : Spec) : ContainerEdits := s.edits

/-- The variables `unresolved`, `edits` and `specs` of `InjectDevices`; `specs` holds
the addresses of the descriptors seen. -/
structure InjectState where
  unresolved : List String
  edits : ContainerEdits
  specs : List Nat

/-- The body of the loop `for _, device := range devices` of `InjectDevices`. -/
def injectStep (registry : GoMap Device) (st : InjectState) (device : String) : InjectState :=
  match registry.lookup device with
  | none => { st with unresolved := st.unresolved ++ [device] }
  | some d =>
    let st1 :=
      if d.GetSpec.addr ∈ st.specs then st
      else { st with specs := d.GetSpec.addr :: st.specs, edits := st.edits.Append d.GetSpec.getEdits }
    { st1 with edits := st1.edits.Append d.edits }

/-- The loop of `InjectDevices` over the requested names. -/
def injectLoop (registry : GoMap Device) (devices : List String) : InjectState :=
  devices.foldl (injectStep registry) { unresolved := [], edits := ContainerEdits.empty, specs := [] }

/-- What `InjectDevices` returns and leaves behind. -/
structure InjectResult where
  cache : Cache
  ociSpec : Option OCISpec
  unresolved : List String
  err : Option Error

/-- The method `Cache.InjectDevices`. -/
def Cache.InjectDevices (env : Env) (c : Cache) (ociSpec : Option OCISpec)
    (devices : List String) : InjectResult :=
  match ociSpec with
  | none => { cache := c, ociSpec := none, unresolved := devices, err := some Error.nilOCISpec }
  | some spec =>
    let c1 := (c.refreshIfRequired env false).1
    let st := injectLoop c1.devices devices
    if st.unresolved ≠ [] then
      { cache := c1, ociSpec := some spec, unresolved := st.unresolved
        err := some (Error.unresolvable (String.intercalate ", " devices)) }
    else
      match st.edits.Apply (some spec) with
      | Except.error msg =>
        { cache := c1, ociSpec := some spec, unresolved := [], err := some (Error.injectFailed msg) }
      | Except.ok spec1 => { cache := c1, ociSpec := some spec1, unresolved := [], err := none }

/-! ## Listings -/

/-- The library function `sort.Strings`: ascending order of strings. -/
def sortStrings (l : List String) : List String := l.insertionSort (fun a b => a ≤ b)

/-- The method `Cache.ListDevices`. -/
def Cache.ListDevices (env : Env) (c : Cache) : Cache × List String :=
  let c1 := (c.refreshIfRequired env false).1
  (c1, sortStrings c1.devices.keys)

/-- The method `Cache.ListVendors`. -/
def Cache.ListVendors (env : Env) (c : Cache) : Cache × List String :=
  let c1 := (c.refreshIfRequired env false).1
  (c1, sortStrings c1.specs.keys)

/-- The set `cmap` of `ListClasses` when its first loop is over. -/
def classSet (specs : GoMap (List Spec)) : GoMap Unit :=
  specs.entries.foldl (fun cmap e => e.2.foldl (fun m spec => m.insert spec.GetClass ()) cmap) ∅

/-- The method `Cache.ListClasses`. -/
def Cache.ListClasses (env : Env) (c : Cache) : Cache × List String :=
  let c1 := (c.refreshIfRequired env false).1
  (c1, sortStrings (classSet c1.specs).keys)

/-- The descriptors the cache holds, over all vendors. -/
def Cache.cachedSpecs (c : Cache) : List Spec := c.specs.entries.flatMap (fun e => e.2)

/-! ## What a scan says about one qualified name -/

/-- The devices named `n` a descriptor declares, as `*Device` values. -/
def specDefinitions (n : String) (spec : Spec) : List Device :=
  (spec.devices.filter (fun de => de.qualifiedName = n)).map (fun de => ⟨de, spec⟩)

/-- The definitions of the qualified name `n` in a scan, in scan order. -/
def definitions (n : String) (scan : List ScanEntry) : List Device :=
  scan.flatMap (fun e =>
    match e with
    | ScanEntry.loaded _ _ spec => specDefinitions n spec
    | ScanEntry.failed _ _ _ => [])

/-- The descriptors a scan loads, in scan order. -/
def loadedSpecs (scan : List ScanEntry) : List Spec :=
  scan.flatMap (fun e =>
    match e with
    | ScanEntry.loaded _ _ spec => [spec]
    | ScanEntry.failed _ _ _ => [])

/-- The scan delivers descriptors in ascending priority order. -/
def Ascending (scan : List ScanEntry) : Prop :=
  (loadedSpecs scan).Pairwise (fun a b => a.priority ≤ b.priority)

/-- The local variables of `refresh` when the callback, the entries `pre` being scanned,
has handled the device entries `dpre` of the descriptor `spec` and reaches the next one. -/
def stateAt (clean : String → String) (pre : List ScanEntry) (spec : Spec)
    (dpre : List DeviceEntry) : RefreshState :=
  dpre.foldl (addDevice spec) (recordSpec (pre.foldl (scanCallback clean) RefreshState.init) spec)

/-- The errors an aggregate returned by `refresh` holds (none when it is `nil`). -/
def aggregated (r : Option (List Error)) : List Error := r.getD []

/-- What `refresh` knows about one name: the device recorded for it and whether the
name is marked as a conflict. -/
def view (n : String) (st : RefreshState) : Option Device × Bool :=
  (st.devices.lookup n, (st.conflicts.lookup n).isSome)

/-- The effect of one more definition of a name on what `refresh` knows about it. -/
def viewStep (v : Option Device × Bool) (dev : Device) : Option Device × Bool :=
  match v.1 with
  | none => (some dev, v.2)
  | some old =>
    if dev.spec.priority > old.spec.priority then (some dev, v.2)
    else if dev.spec.priority = old.spec.priority then (some old, true)
    else v

/-! ## The registry a refresh builds -/

/-- The devices map `refresh` stores: the scanned devices without the conflicts. -/
def freshDevices (env : Env) : GoMap Device :=
  dropConflicts (scanAll env).devices (scanAll env).conflicts.keys

/-! ## Invariants of the errors a scan collects -/

/-- A later state of `refresh` holds every error an earlier one holds. -/
def Grows (st st2 : RefreshState) : Prop :=
  (∀ e, e ∈ st.result → e ∈ st2.result) ∧
  (∀ p e, e ∈ getSlice st.specErrors p → e ∈ getSlice st2.specErrors p)

/-- The local variables of `refresh` after an equal-priority collision of the device
entry `de` of `spec` with the recorded device `other`. -/
def collided (spec : Spec) (st : RefreshState) (de : DeviceEntry) (other : Device) :
    RefreshState :=
  { collectError st (Error.conflict de.qualifiedName spec.path other.spec.path)
      [spec.path, other.spec.path] with
    conflicts := st.conflicts.insert de.qualifiedName () }

/-- Every conflict error a state of `refresh` holds is on a name marked as a conflict. -/
def ConflictsMarked (st : RefreshState) : Prop :=
  (∀ k a b, Error.conflict k a b ∈ st.result → (st.conflicts.lookup k).isSome = true) ∧
  (∀ p k a b, Error.conflict k a b ∈ getSlice st.specErrors p →
    (st.conflicts.lookup k).isSome = true)

/-! ## Example inputs -/

/-- A device entry `acme/gpu=dev0` without edits. -/
def exDev0 : DeviceEntry := ⟨"acme/gpu=dev0", ContainerEdits.empty⟩

/-- A descriptor of priority 0 declaring `acme/gpu=dev0`. -/
def exSpecLow : Spec := ⟨1, "acme", "gpu", "/etc/cdi/low.json", 0, ContainerEdits.empty, [exDev0]⟩

/-- A descriptor of priority 1 declaring `acme/gpu=dev0`. -/
def exSpecA : Spec := ⟨2, "acme", "gpu", "/run/cdi/a.json", 1, ContainerEdits.empty, [exDev0]⟩

/-- A second descriptor of priority 1 declaring `acme/gpu=dev0`. -/
def exSpecB : Spec := ⟨3, "acme", "gpu", "/run/cdi/b.json", 1, ContainerEdits.empty, [exDev0]⟩

/-- A scan of three descriptors that all declare `acme/gpu=dev0`: one of priority 0,
then two of priority 1. -/
def exEnvConflict : Env :=
  { scan := [ScanEntry.loaded "/etc/cdi/low.json" 0 exSpecLow,
             ScanEntry.loaded "/run/cdi/a.json" 1 exSpecA,
             ScanEntry.loaded "/run/cdi/b.json" 1 exSpecB]
    watchAdd := fun _ => none
    clean := fun path => path }

/-- A scan of two descriptors of priorities 0 and 1 that declare `acme/gpu=dev0`. -/
def exEnvOverride : Env :=
  { scan := [ScanEntry.loaded "/etc/cdi/low.json" 0 exSpecLow,
             ScanEntry.loaded "/run/cdi/a.json" 1 exSpecA]
    watchAdd := fun _ => none
    clean := fun path => path }

/-- A cache in manual mode that holds nothing yet. -/
def exCache : Cache :=
  { specDirs := ["/etc/cdi", "/run/cdi"], specs := ∅, devices := ∅, errors := ∅, dirErrors := ∅,
    autoRefresh := false, watch := { tracked := ∅ } }

/-! ## Injection: names and devices -/

/-- The registry an operation consults: the devices map after `refreshIfRequired(false)`. -/
def Cache.registry (env : Env) (c : Cache) : GoMap Device :=
  (c.refreshIfRequired env false).1.devices

/-- The requested names that are absent from a registry, in request order. -/
def absentNames (registry : GoMap Device) (devices : List String) : List String :=
  devices.filter (fun n => (registry.lookup n).isNone)

/-- The devices the requested names resolve to, in request order. -/
def resolvedDevices (registry : GoMap Device) (devices : List String) : List Device :=
  devices.filterMap (fun n => registry.lookup n)

/-! ## Injection: orders of the changeset -/

/-- The distinct descriptors of a list of devices, by address, in first-seen order. -/
def distinctSpecs : List Device → List Spec
  | [] => []
  | d :: ds => d.spec :: (distinctSpecs ds).filter (fun s => decide (s.addr ≠ d.spec.addr))

/-- The changeset in the order the data model words it: the spec-level edits of the
distinct descriptors in first-seen order, then the device-level edits of the devices in
request order. -/
def specEditsFirst (ds : List Device) : ContainerEdits :=
  (ds.map (fun d => d.entry.edits)).foldl ContainerEdits.Append
    (((distinctSpecs ds).map (fun s => s.edits)).foldl ContainerEdits.Append ContainerEdits.empty)

/-- The edits in request order: for each device the spec-level edits of its descriptor,
unless an earlier device has the same descriptor, directly followed by the device-level
edits of the device. -/
def editsInRequestOrder (earlier : List Device) : List Device → List ContainerEdits
  | [] => []
  | d :: rest =>
    (if earlier.any (fun e => e.spec.addr == d.spec.addr) then [d.entry.edits]
      else [d.spec.edits, d.entry.edits]) ++ editsInRequestOrder (earlier ++ [d]) rest

/-- A mount contributed at spec level. -/
def exMountShared : Mount := ⟨"/opt/acme/lib", "/usr/lib/acme"⟩

/-- A mount contributed at device level. -/
def exMountDevice : Mount := ⟨"/opt/acme/dev", "/dev/acme"⟩

/-- A descriptor whose spec-level edits add one mount and that declares the devices
`acme/gpu=a` (with a device-level mount) and `acme/gpu=b`. -/
def exSpecShared : Spec :=
  { addr := 10, vendor := "acme", cls := "gpu", path := "/etc/cdi/acme.json", priority := 0
    edits := { env := [], deviceNodes := [], hooks := [], mounts := [] }
    devices := [⟨"acme/gpu=a", { env := [], deviceNodes := [], hooks := [], mounts := [exMountDevice] }⟩,
                ⟨"acme/gpu=b", ContainerEdits.empty⟩] }

/-- A descriptor of another vendor whose spec-level edits add one mount and that declares
the device `beta/nic=c`. -/
def exSpecOther : Spec :=
  { addr := 11, vendor := "beta", cls := "nic", path := "/etc/cdi/beta.json", priority := 0
    edits := { env := [], deviceNodes := [], hooks := [], mounts := [exMountShared] }
    devices := [⟨"beta/nic=c", ContainerEdits.empty⟩, ⟨"beta/nic=d", ContainerEdits.empty⟩] }

/-- A scan that loads the two descriptors above. -/
def exEnvInject : Env :=
  { scan := [ScanEntry.loaded "/etc/cdi/acme.json" 0 exSpecShared,
             ScanEntry.loaded "/etc/cdi/beta.json" 0 exSpecOther]
    watchAdd := fun _ => none
    clean := fun path => path }

/-- The cache in manual mode after a refresh over that scan. -/
def exCacheInject : Cache := (exCache.refresh exEnvInject).1

/-- A runtime specification without entries. -/
def exOCISpec : OCISpec := ⟨[], [], [], []⟩

/-- An environment in which every watch registration succeeds and nothing is scanned. -/
def exEnvEmpty : Env := { scan := [], watchAdd := fun _ => none, clean := fun path => path }

/-! ## Reconciling the watches: what one attempt leaves -/

/-- What one registration attempt leaves in `w.tracked` for the directory. -/
def trackedAfterAdd (add : String → Option String) (dir : String) : Bool :=
  (add dir).isNone

/-- What one registration attempt leaves in `dirErrors` for the directory. -/
def errorAfterAdd (add : String → Option String) (dir : String) : Option Error :=
  (add dir).map Error.monitorFailed

/-- A watch that watches `/etc/cdi` and knows `/run/cdi` without watching it yet. -/
def exWatchMixed : Watch :=
  { tracked := ((∅ : GoMap Bool).insert "/etc/cdi" true).insert "/run/cdi" false }

/-! ## Invariants of the maps a refresh builds -/

/-- Every device of a devices map is stored under its own qualified name. -/
def KeyedByName (m : GoMap Device) : Prop :=
  ∀ k d, m.lookup k = some d → d.GetQualifiedName = k

/-- Every vendor of a descriptors map holds at least one descriptor, and only descriptors
of that vendor. -/
def KeyedByVendor (m : GoMap (List Spec)) : Prop :=
  ∀ v l, m.lookup v = some l → l ≠ [] ∧ ∀ s ∈ l, s.GetVendor = v

/-! ## Example inputs: a later descriptor of higher priority -/

/-- A descriptor of priority 2 declaring `acme/gpu=dev0`. -/
def exSpecTop : Spec := ⟨4, "acme", "gpu", "/var/cdi/top.json", 2, ContainerEdits.empty, [exDev0]⟩

/-- A scan of two descriptors of priority 1 and then one of priority 2, all declaring
`acme/gpu=dev0`. -/
def exEnvLateOverride : Env :=
  { scan := [ScanEntry.loaded "/run/cdi/a.json" 1 exSpecA,
             ScanEntry.loaded "/run/cdi/b.json" 1 exSpecB,
             ScanEntry.loaded "/var/cdi/top.json" 2 exSpecTop]
    watchAdd := fun _ => none
    clean := fun path => path }

/-! ## Refresh -/

/-- The loop `for _, err := range c.errors { result = multierror.Append(result, err...) }`
of `Refresh`: `none` is the `nil` the loop starts with, and one pass makes the result a
multi-error, also over an empty list. -/
def cachedErrors (errors : GoMap (List Error)) : Option (List Error) :=
  errors.entries.foldl (fun result e => some (result.getD [] ++ e.2)) none

/-- The method `Cache.Refresh`: the new cache and the returned error. -/
def Cache.Refresh (env : Env) (c : Cache) : Cache × Option (List Error) :=
  let r := c.refreshIfRequired env (!c.autoRefresh)
  if r.2.1 then (r.1, r.2.2) else (r.1, cachedErrors r.1.errors)

/-- Every path of a per-path error map has at least one error. -/
def NoEmptyList (m : GoMap (List Error)) : Prop :=
  ∀ p l, m.lookup p = some l → l ≠ []

/-- The errors collected once globally are the errors collected per path. -/
def SameErrors (st : RefreshState) : Prop :=
  NoEmptyList st.specErrors ∧
    (∀ e, e ∈ st.result → ∃ p, e ∈ getSlice st.specErrors p) ∧
    (∀ p e, e ∈ getSlice st.specErrors p → e ∈ st.result)

/-- A cache in auto-refresh mode whose watch has nothing left to register. -/
def exCacheAuto : Cache :=
  { specDirs := ["/etc/cdi", "/run/cdi"], specs := ∅, devices := ∅, errors := ∅, dirErrors := ∅,
    autoRefresh := true
    watch := { tracked := ((∅ : GoMap Bool).insert "/etc/cdi" true).insert "/run/cdi" true } }

/-! ## Setting up the watch -/

/-- The loop `for _, dir = range dirs { w.tracked[dir] = false }` of `watch.setup`, over
the fresh map. -/
def untrackedAll (dirs : List String) : GoMap Bool :=
  dirs.foldl (fun m dir => m.insert dir false) ∅

/-- The method `watch.setup(dirs, dirErrors)`: the watch and the directory errors it
leaves.  `newWatcher` is the answer of `fsnotify.NewWatcher()`: `none` is a watcher,
`some msg` an error. -/
def Watch.setup (newWatcher : Option String) (add : String → Option String)
    (dirs : List String) (dirErrors : GoMap Error) : Watch × GoMap Error :=
  match newWatcher with
  | some msg =>
    ({ tracked := untrackedAll dirs },
     dirs.foldl (fun errs dir => errs.insert dir (Error.watcherFailed msg)) dirErrors)
  | none =>
    let u := Watch.update add { tracked := untrackedAll dirs } dirErrors []
    ({ tracked := u.tracked }, u.dirErrors)

/-- One later call `w.update(dirErrors, removed...)`: what the registrations answer
during the call, and the removed paths passed. -/
structure UpdateCall where
  add : String → Option String
  removed : List String

/-- The watch and the directory errors after one more call of `watch.update`. -/
def runUpdate (st : Watch × GoMap Error) (call : UpdateCall) : Watch × GoMap Error :=
  ({ tracked := (st.1.update call.add st.2 call.removed).tracked },
   (st.1.update call.add st.2 call.removed).dirErrors)

/-- The watch and the directory errors after a sequence of calls of `watch.update`. -/
def runUpdates (st : Watch × GoMap Error) (calls : List UpdateCall) : Watch × GoMap Error :=
  calls.foldl runUpdate st

/-- A directory known to the watch is tracked exactly when it has no directory error. -/
def TrackedIffNoError (st : Watch × GoMap Error) : Prop :=
  ∀ d b, st.1.tracked.lookup d = some b → (b = true ↔ st.2.lookup d = none)

/-- A registration outcome: `/run/cdi` does not exist, every other directory does. -/
def exAddRunMissing : String → Option String :=
  fun dir => if dir = "/run/cdi" then some "no such file or directory" else none

/-! ## WriteSpec -/

/-- What `WriteSpec` calls outside `cache.go`, for raw descriptors of type `Raw`. -/
structure WriteEnv (Raw : Type) where
  /-- the library function `filepath.Join(specDir, name)` -/
  join : String → String → String
  /-- the constructor `NewSpec(raw, path, priority)`: a descriptor or an error -/
  newSpec : Raw → String → Int → Except Error Spec
  /-- the method `spec.Write(overwrite)`: `none` is success -/
  write : Spec → Bool → Option Error

/-- What `WriteSpec` returns and does: the returned error, the path and priority it
hands to `NewSpec`, and the descriptor and overwrite flag it hands to `Write`. -/
structure WriteResult where
  err : Option Error
  created : Option (String × Int)
  written : Option (Spec × Bool)

/-- The method `Cache.WriteSpec`. -/
def Cache.WriteSpec {Raw : Type} (wenv : WriteEnv Raw) (c : Cache) (raw : Raw)
    (name : String) : WriteResult :=
  if c.specDirs.length = 0 then
    { err := some Error.noSpecDirs, created := none, written := none }
  else
    let prio : Int := (c.specDirs.length : Int) - 1
    let specDir := c.specDirs.getD (c.specDirs.length - 1) ""
    let joined := wenv.join specDir name
    let path :=
      if filepathExt joined ≠ ".json" ∧ filepathExt joined ≠ ".yaml" then joined ++ ".json"
      else joined
    match wenv.newSpec raw path prio with
    | Except.error e => { err := some e, created := some (path, prio), written := none }
    | Except.ok spec =>
      { err := wenv.write spec true, created := some (path, prio), written := some (spec, true) }

/-! ## The destination of `podman system connection add` -/

/-- The character class `[A-Za-z]`. -/
def isSchemeLetter (ch : Char) : Bool :=
  (decide ('A' ≤ ch) && decide (ch ≤ 'Z')) || (decide ('a' ≤ ch) && decide (ch ≤ 'z'))

/-- The character class `[A-Za-z0-9+.-]`. -/
def isSchemeChar (ch : Char) : Bool :=
  isSchemeLetter ch || (decide ('0' ≤ ch) && decide (ch ≤ '9')) ||
    ch == '+' || ch == '.' || ch == '-'

/-- The call `regexp.Match("^[A-Za-z][A-Za-z0-9+.-]*://", []byte(dest))` of `add`; the
pattern is valid, so the call returns no error. -/
def matchScheme (dest : String) : Bool :=
  match dest.data with
  | [] => false
  | ch :: rest =>
    isSchemeLetter ch && ((rest.dropWhile isSchemeChar).take 3 == [':', '/', '/'])

/-- The string `add` hands to `url.Parse`. -/
def parsedDestination (dest : String) : String :=
  if matchScheme dest then dest else "ssh://" ++ dest

/-- The destination begins with a URL scheme: a letter, any number of letters, digits,
`+`, `.` or `-`, then `://`. -/
def HasScheme (dest : String) : Prop :=
  ∃ (l : Char) (cs rest : List Char),
    dest.data = l :: (cs ++ ':' :: '/' :: '/' :: rest) ∧ isSchemeLetter l = true ∧
      ∀ ch ∈ cs, isSchemeChar ch = true

/-! # Theorems -/

/-! ## What a scan says about one qualified name -/

theorem recordAt_devices (err : Error) (s : RefreshState) (path : String) :
    (recordAt err s path).devices = s.devices := rfl

theorem recordAt_conflicts (err : Error) (s : RefreshState) (path : String) :
    (recordAt err s path).conflicts = s.conflicts := rfl

theorem recordAt_specs (err : Error) (s : RefreshState) (path : String) :
    (recordAt err s path).specs = s.specs := rfl

theorem recordAt_result (err : Error) (s : RefreshState) (path : String) :
    (recordAt err s path).result = s.result := rfl

theorem foldl_recordAt_fields (err : Error) (paths : List String) (s : RefreshState) :
    (paths.foldl (recordAt err) s).devices = s.devices ∧
    (paths.foldl (recordAt err) s).conflicts = s.conflicts ∧
    (paths.foldl (recordAt err) s).specs = s.specs ∧
    (paths.foldl (recordAt err) s).result = s.result := by
  induction paths generalizing s with
  | nil => exact ⟨rfl, rfl, rfl, rfl⟩
  | cons p ps ih =>
    simp only [List.foldl_cons]
    obtain ⟨h1, h2, h3, h4⟩ := ih (recordAt err s p)
    exact ⟨h1, h2, h3, h4⟩

theorem collectError_devices (st : RefreshState) (err : Error) (paths : List String) :
    (collectError st err paths).devices = st.devices :=
  (foldl_recordAt_fields err paths _).1

theorem collectError_conflicts (st : RefreshState) (err : Error) (paths : List String) :
    (collectError st err paths).conflicts = st.conflicts :=
  (foldl_recordAt_fields err paths _).2.1

theorem collectError_specs (st : RefreshState) (err : Error) (paths : List String) :
    (collectError st err paths).specs = st.specs :=
  (foldl_recordAt_fields err paths _).2.2.1

theorem collectError_result (st : RefreshState) (err : Error) (paths : List String) :
    (collectError st err paths).result = st.result ++ [err] :=
  (foldl_recordAt_fields err paths _).2.2.2

theorem view_collectError (n : String) (st : RefreshState) (err : Error) (paths : List String) :
    view n (collectError st err paths) = view n st := by
  simp [view, collectError_devices, collectError_conflicts]

theorem view_addDevice_ne (n : String) (spec : Spec) (st : RefreshState) (de : DeviceEntry)
    (h : de.qualifiedName ≠ n) : view n (addDevice spec st de) = view n st := by
  have hn : n ≠ de.qualifiedName := fun e => h e.symm
  unfold addDevice
  simp only [Device.GetQualifiedName]
  cases hl : st.devices.lookup de.qualifiedName with
  | none => simp [view, AList.lookup_insert_ne hn]
  | some other =>
    simp only [resolveConflict]
    split_ifs <;>
      simp [view, AList.lookup_insert_ne hn, collectError_devices, collectError_conflicts]

theorem view_addDevice_eq (spec : Spec) (st : RefreshState) (de : DeviceEntry) :
    view de.qualifiedName (addDevice spec st de) =
      viewStep (view de.qualifiedName st) ⟨de, spec⟩ := by
  unfold addDevice
  simp only [Device.GetQualifiedName]
  cases hl : st.devices.lookup de.qualifiedName with
  | none => simp [view, viewStep, hl]
  | some other =>
    simp only [resolveConflict, Device.GetSpec, Spec.GetPriority, Spec.GetPath]
    by_cases h1 : spec.priority > other.spec.priority
    · simp [view, viewStep, hl, h1]
    · by_cases h2 : spec.priority = other.spec.priority
      · simp [view, viewStep, hl, h2, collectError_devices, collectError_conflicts]
      · simp [view, viewStep, hl, h1, h2]

theorem view_foldl_addDevice (n : String) (spec : Spec) (des : List DeviceEntry)
    (st : RefreshState) :
    view n (des.foldl (addDevice spec) st) =
      (((des.filter (fun de => de.qualifiedName = n)).map (fun de => (⟨de, spec⟩ : Device))).foldl
        viewStep (view n st)) := by
  induction des generalizing st with
  | nil => rfl
  | cons de des ih =>
    simp only [List.foldl_cons]
    rw [ih]
    by_cases h : de.qualifiedName = n
    · subst h
      simp [view_addDevice_eq]
    · simp [h, view_addDevice_ne n spec st de h]

theorem view_scanCallback (n : String) (clean : String → String) (st : RefreshState)
    (e : ScanEntry) :
    view n (scanCallback clean st e) = (definitions n [e]).foldl viewStep (view n st) := by
  cases e with
  | failed path prio err => simp [scanCallback, definitions, view_collectError]
  | loaded path prio spec =>
    simp only [scanCallback, definitions, List.flatMap_cons, List.flatMap_nil, List.append_nil,
      specDefinitions]
    rw [view_foldl_addDevice]
    rfl

theorem definitions_append (n : String) (a b : List ScanEntry) :
    definitions n (a ++ b) = definitions n a ++ definitions n b := by
  simp [definitions, List.flatMap_append]

theorem definitions_cons (n : String) (e : ScanEntry) (l : List ScanEntry) :
    definitions n (e :: l) = definitions n [e] ++ definitions n l := by
  simp [definitions, List.flatMap_cons]

theorem view_foldl_scanCallback (n : String) (clean : String → String) (scan : List ScanEntry)
    (st : RefreshState) :
    view n (scan.foldl (scanCallback clean) st) =
      (definitions n scan).foldl viewStep (view n st) := by
  induction scan generalizing st with
  | nil => rfl
  | cons e scan ih =>
    rw [List.foldl_cons, ih, view_scanCallback, definitions_cons n e scan, List.foldl_append]

theorem view_init (n : String) : view n RefreshState.init = (none, false) := by
  simp [view, RefreshState.init]

theorem view_scanAll (n : String) (env : Env) :
    view n (scanAll env) = (definitions n env.scan).foldl viewStep (none, false) := by
  rw [scanAll, view_foldl_scanCallback, view_init]

/-! ## The registry a refresh builds -/

theorem refresh_devices (env : Env) (c : Cache) : (c.refresh env).1.devices = freshDevices env := rfl

theorem refresh_specs (env : Env) (c : Cache) : (c.refresh env).1.specs = (scanAll env).specs := rfl

theorem refresh_errors (env : Env) (c : Cache) :
    (c.refresh env).1.errors = (scanAll env).specErrors := rfl

theorem lookup_dropConflicts (m : GoMap Device) (ks : List String) (n : String) :
    (dropConflicts m ks).lookup n = if n ∈ ks then none else m.lookup n := by
  induction ks generalizing m with
  | nil => simp [dropConflicts]
  | cons k ks ih =>
    have hstep : dropConflicts m (k :: ks) = dropConflicts (m.erase k) ks := rfl
    rw [hstep, ih]
    by_cases hk : n ∈ ks
    · simp [hk]
    · by_cases hnk : n = k
      · subst hnk
        simp [hk, AList.lookup_erase]
      · simp [hk, hnk, AList.lookup_erase_ne hnk]

theorem lookup_freshDevices (env : Env) (n : String) :
    (freshDevices env).lookup n =
      if (view n (scanAll env)).2 then none else (view n (scanAll env)).1 := by
  rw [freshDevices, lookup_dropConflicts]
  have hmem : n ∈ (scanAll env).conflicts.keys ↔ ((scanAll env).conflicts.lookup n).isSome = true := by
    rw [AList.lookup_isSome, AList.mem_keys]
  by_cases h : n ∈ (scanAll env).conflicts.keys
  · simp [view, h, hmem.mp h]
  · have h2 : ((scanAll env).conflicts.lookup n).isSome = false := by
      cases hb : ((scanAll env).conflicts.lookup n).isSome with
      | true => exact absurd (hmem.mpr hb) h
      | false => rfl
    simp [view, h, h2]

theorem refreshIfRequired_registry (env : Env) (c : Cache) (force : Bool) :
    ((c.refreshIfRequired env force).1.devices = c.devices ∧
      (c.refreshIfRequired env force).1.specs = c.specs ∧
      (c.refreshIfRequired env force).1.errors = c.errors) ∨
    ((c.refreshIfRequired env force).1.devices = freshDevices env ∧
      (c.refreshIfRequired env force).1.specs = (scanAll env).specs ∧
      (c.refreshIfRequired env force).1.errors = (scanAll env).specErrors) := by
  unfold Cache.refreshIfRequired
  by_cases hf : force = true
  · simp only [hf, if_true]
    exact Or.inr ⟨rfl, rfl, rfl⟩
  · by_cases ha : c.autoRefresh = true
    · by_cases hu : (c.watch.update env.watchAdd c.dirErrors []).update = true
      · simp only [hf, ha, hu, if_true, if_false]
        exact Or.inr ⟨rfl, rfl, rfl⟩
      · simp only [hf, ha, hu, if_true, if_false]
        exact Or.inl ⟨rfl, rfl, rfl⟩
    · simp only [hf, ha, if_false]
      exact Or.inl ⟨rfl, rfl, rfl⟩

theorem getDevice_after_refresh (env : Env) (c : Cache) (n : String) :
    (Cache.GetDevice env (c.refresh env).1 n).2 = (freshDevices env).lookup n := by
  unfold Cache.GetDevice
  rcases refreshIfRequired_registry env (c.refresh env).1 false with h | h
  · simp only [h.1, refresh_devices]
  · simp only [h.1]

/-! ## Folding the definitions of one name -/

theorem viewStep_marked (v : Option Device × Bool) (d : Device) (h : v.2 = true) :
    (viewStep v d).2 = true := by
  unfold viewStep
  cases hv : v.1 with
  | none => simpa using h
  | some old =>
    simp only
    split_ifs <;> simp [h]

theorem foldl_viewStep_marked (l : List Device) (v : Option Device × Bool) (h : v.2 = true) :
    (l.foldl viewStep v).2 = true := by
  induction l generalizing v with
  | nil => exact h
  | cons d l ih => exact ih _ (viewStep_marked v d h)

theorem viewStep_cur (v : Option Device × Bool) (d : Device) :
    ∃ r, (viewStep v d).1 = some r ∧ d.spec.priority ≤ r.spec.priority ∧
      (r = d ∨ v.1 = some r) ∧ (∀ o, v.1 = some o → o.spec.priority ≤ r.spec.priority) := by
  unfold viewStep
  cases hv : v.1 with
  | none => exact ⟨d, rfl, le_refl _, Or.inl rfl, fun o ho => by cases ho⟩
  | some old =>
    simp only
    by_cases h1 : d.spec.priority > old.spec.priority
    · refine ⟨d, by simp [h1], le_refl _, Or.inl rfl, ?_⟩
      intro o ho
      cases ho
      exact le_of_lt h1
    · by_cases h2 : d.spec.priority = old.spec.priority
      · refine ⟨old, by simp [h2], le_of_eq h2, Or.inr rfl, ?_⟩
        intro o ho
        cases ho
        exact le_refl _
      · refine ⟨old, ?_, le_of_not_lt h1, Or.inr rfl, ?_⟩
        · simp [h1, h2, hv]
        · intro o ho
          cases ho
          exact le_refl _

theorem foldl_viewStep_cur (l : List Device) (v : Option Device × Bool)
    (hne : l ≠ [] ∨ v.1.isSome = true) :
    ∃ r, (l.foldl viewStep v).1 = some r ∧ (r ∈ l ∨ v.1 = some r) ∧
      (∀ x ∈ l, x.spec.priority ≤ r.spec.priority) ∧
      (∀ o, v.1 = some o → o.spec.priority ≤ r.spec.priority) := by
  induction l generalizing v with
  | nil =>
    rcases hne with h | h
    · exact absurd rfl h
    · cases hv : v.1 with
      | none => simp [hv] at h
      | some o =>
        refine ⟨o, hv, Or.inr rfl, by simp, ?_⟩
        intro o2 ho2
        cases ho2
        exact le_refl _
  | cons d l ih =>
    obtain ⟨r1, hr1, hd1, hor1, hold1⟩ := viewStep_cur v d
    obtain ⟨r, hr, hmem, hall, hprev⟩ := ih (viewStep v d) (Or.inr (by simp [hr1]))
    have hr1r : r1.spec.priority ≤ r.spec.priority := hprev r1 hr1
    refine ⟨r, hr, ?_, ?_, ?_⟩
    · rcases hmem with hm | hm
      · exact Or.inl (List.mem_cons_of_mem _ hm)
      · rw [hr1] at hm
        cases hm
        rcases hor1 with h | h
        · exact Or.inl (h ▸ List.mem_cons_self _ _)
        · exact Or.inr h
    · intro x hx
      rcases List.mem_cons.mp hx with h | h
      · subst h
        exact le_trans hd1 hr1r
      · exact hall x h
    · intro o ho
      exact le_trans (hold1 o ho) hr1r

theorem viewStep_equal_marks (v : Option Device × Bool) (d old : Device) (hv : v.1 = some old)
    (h : d.spec.priority = old.spec.priority) : (viewStep v d).2 = true := by
  unfold viewStep
  rw [hv]
  simp [h]

theorem foldl_viewStep_equal_marks (A B C : List Device) (d1 d2 : Device)
    (hpw : (A ++ d1 :: B ++ d2 :: C).Pairwise (fun a b => a.spec.priority ≤ b.spec.priority))
    (heq : d1.spec.priority = d2.spec.priority) :
    ((A ++ d1 :: B ++ d2 :: C).foldl viewStep (none, false)).2 = true := by
  rw [List.foldl_append, List.foldl_cons]
  apply foldl_viewStep_marked
  obtain ⟨r, hr, hmem, hall, -⟩ :=
    foldl_viewStep_cur (A ++ d1 :: B) (none, false) (Or.inl (by simp))
  have hrmem : r ∈ A ++ d1 :: B := by
    rcases hmem with h | h
    · exact h
    · cases h
  have hle : r.spec.priority ≤ d2.spec.priority :=
    (List.pairwise_append.mp hpw).2.2 r hrmem d2 (List.mem_cons_self _ _)
  have hge : d1.spec.priority ≤ r.spec.priority := hall d1 (by simp)
  have hprio : d2.spec.priority = r.spec.priority := le_antisymm (heq ▸ hge) hle
  exact viewStep_equal_marks _ d2 r hr hprio

theorem viewStep_unmarked (v : Option Device × Bool) (d : Device) (h : v.2 = false)
    (hne : ∀ o, v.1 = some o → d.spec.priority ≠ o.spec.priority) :
    (viewStep v d).2 = false := by
  unfold viewStep
  cases hv : v.1 with
  | none => simpa using h
  | some old =>
    have hne2 := hne old hv
    simp only
    split_ifs <;> simp [h]

theorem foldl_viewStep_unmarked (l : List Device) (v : Option Device × Bool) (h : v.2 = false)
    (hv : ∀ o, v.1 = some o → ∀ x ∈ l, x.spec.priority ≠ o.spec.priority)
    (hnd : (l.map (fun x => x.spec.priority)).Nodup) :
    (l.foldl viewStep v).2 = false := by
  induction l generalizing v with
  | nil => exact h
  | cons d l ih =>
    rw [List.map_cons, List.nodup_cons] at hnd
    apply ih _ (viewStep_unmarked v d h (fun o ho => hv o ho d (List.mem_cons_self _ _)))
    · intro o ho x hx
      obtain ⟨r, hr, -, hor, -⟩ := viewStep_cur v d
      rw [hr] at ho
      cases ho
      rcases hor with h1 | h1
      · subst h1
        intro hxe
        exact hnd.1 (List.mem_map.mpr ⟨x, hx, hxe⟩)
      · exact hv _ h1 x (List.mem_cons_of_mem _ hx)
    · exact hnd.2

theorem foldl_viewStep_distinct (l : List Device) (d : Device)
    (hnd : (l.map (fun x => x.spec.priority)).Nodup) (hd : d ∈ l)
    (hmax : ∀ x ∈ l, x.spec.priority ≤ d.spec.priority) :
    l.foldl viewStep (none, false) = (some d, false) := by
  have h2 : (l.foldl viewStep (none, false)).2 = false :=
    foldl_viewStep_unmarked l (none, false) rfl (fun o ho => by cases ho) hnd
  obtain ⟨r, hr, hmem, hall, -⟩ :=
    foldl_viewStep_cur l (none, false) (Or.inl (List.ne_nil_of_mem hd))
  have hrmem : r ∈ l := by
    rcases hmem with h | h
    · exact h
    · cases h
  have hprio : r.spec.priority = d.spec.priority := le_antisymm (hmax r hrmem) (hall d hd)
  have hrd : r = d := List.inj_on_of_nodup_map hnd hrmem hd hprio
  subst hrd
  exact Prod.ext hr h2

/-! ## Definitions of a name and ascending scans -/

theorem mem_specDefinitions {n : String} {spec : Spec} {d : Device} :
    d ∈ specDefinitions n spec ↔
      d.spec = spec ∧ d.entry ∈ spec.devices ∧ d.entry.qualifiedName = n := by
  unfold specDefinitions
  simp only [List.mem_map, List.mem_filter, decide_eq_true_eq]
  constructor
  · rintro ⟨de, ⟨hde, hn⟩, rfl⟩
    exact ⟨rfl, hde, hn⟩
  · rintro ⟨hs, hde, hn⟩
    refine ⟨d.entry, ⟨hde, hn⟩, ?_⟩
    cases d
    simp_all

theorem spec_mem_loadedSpecs {n : String} {scan : List ScanEntry} {d : Device}
    (h : d ∈ definitions n scan) : d.spec ∈ loadedSpecs scan := by
  simp only [definitions, List.mem_flatMap] at h
  obtain ⟨e, he, hd⟩ := h
  simp only [loadedSpecs, List.mem_flatMap]
  refine ⟨e, he, ?_⟩
  cases e with
  | failed path prio err => simp at hd
  | loaded path prio spec =>
    simp only at hd
    simp [(mem_specDefinitions.mp hd).1]

theorem definitions_single_pairwise (n : String) (e : ScanEntry) :
    (definitions n [e]).Pairwise (fun a b => a.spec.priority ≤ b.spec.priority) := by
  cases e with
  | failed path prio err => simp [definitions]
  | loaded path prio spec =>
    have hall : ∀ d, d ∈ definitions n [ScanEntry.loaded path prio spec] → d.spec = spec := by
      intro d hd
      simp only [definitions, List.flatMap_cons, List.flatMap_nil, List.append_nil] at hd
      exact (mem_specDefinitions.mp hd).1
    have htriv : (definitions n [ScanEntry.loaded path prio spec]).Pairwise (fun _ _ => True) :=
      List.pairwise_of_forall (fun _ _ => trivial)
    exact htriv.imp_of_mem (fun ha hb _ => by rw [hall _ ha, hall _ hb])

theorem loadedSpecs_cons (e : ScanEntry) (l : List ScanEntry) :
    loadedSpecs (e :: l) = loadedSpecs [e] ++ loadedSpecs l := by
  simp [loadedSpecs, List.flatMap_cons]

theorem definitions_pairwise (n : String) (scan : List ScanEntry) (h : Ascending scan) :
    (definitions n scan).Pairwise (fun a b => a.spec.priority ≤ b.spec.priority) := by
  induction scan with
  | nil => simp [definitions]
  | cons e scan ih =>
    unfold Ascending at h
    rw [loadedSpecs_cons, List.pairwise_append] at h
    rw [definitions_cons n e scan, List.pairwise_append]
    refine ⟨definitions_single_pairwise n e, ih h.2.1, ?_⟩
    intro a ha b hb
    exact h.2.2 a.spec (spec_mem_loadedSpecs ha) b.spec (spec_mem_loadedSpecs hb)

theorem definitions_loaded (n : String) (path : String) (prio : Int) (spec : Spec)
    (l : List ScanEntry) :
    definitions n (ScanEntry.loaded path prio spec :: l) =
      specDefinitions n spec ++ definitions n l := by
  simp [definitions, List.flatMap_cons]

theorem exists_specDefinition {n : String} {spec : Spec}
    (h : n ∈ spec.devices.map DeviceEntry.qualifiedName) :
    ∃ d, d ∈ specDefinitions n spec ∧ d.spec = spec := by
  obtain ⟨de, hde, hn⟩ := List.mem_map.mp h
  exact ⟨⟨de, spec⟩, mem_specDefinitions.mpr ⟨rfl, hde, hn⟩, rfl⟩

/-! ## Errors collected by a scan -/

theorem getSlice_insert {V : Type} (m : GoMap (List V)) (k p : String) (v : List V) :
    getSlice (m.insert k v) p = if p = k then v else getSlice m p := by
  unfold getSlice
  by_cases h : p = k
  · subst h
    simp [AList.lookup_insert]
  · simp [h, AList.lookup_insert_ne h]

theorem mem_getSlice_foldl_recordAt (err e : Error) (paths : List String) (s : RefreshState)
    (p : String) :
    e ∈ getSlice (paths.foldl (recordAt err) s).specErrors p ↔
      e ∈ getSlice s.specErrors p ∨ (e = err ∧ p ∈ paths) := by
  induction paths generalizing s with
  | nil => simp
  | cons q ps ih =>
    rw [List.foldl_cons, ih]
    simp only [recordAt, getSlice_insert]
    by_cases hpq : p = q
    · subst hpq
      simp only [if_true, List.mem_append, List.mem_singleton, List.mem_cons, true_or, and_true]
      tauto
    · simp only [hpq, if_false, List.mem_cons, false_or]

theorem mem_getSlice_collectError (st : RefreshState) (err e : Error) (paths : List String)
    (p : String) :
    e ∈ getSlice (collectError st err paths).specErrors p ↔
      e ∈ getSlice st.specErrors p ∨ (e = err ∧ p ∈ paths) := by
  unfold collectError
  rw [mem_getSlice_foldl_recordAt]

theorem Grows.refl (st : RefreshState) : Grows st st := ⟨fun _ h => h, fun _ _ h => h⟩

theorem Grows.trans {a b c : RefreshState} (h1 : Grows a b) (h2 : Grows b c) : Grows a c :=
  ⟨fun e h => h2.1 e (h1.1 e h), fun p e h => h2.2 p e (h1.2 p e h)⟩

theorem grows_collectError (st : RefreshState) (err : Error) (paths : List String) :
    Grows st (collectError st err paths) := by
  refine ⟨?_, ?_⟩
  · intro e he
    rw [collectError_result]
    exact List.mem_append_left _ he
  · intro p e he
    rw [mem_getSlice_collectError]
    exact Or.inl he

theorem addDevice_none (spec : Spec) (st : RefreshState) (de : DeviceEntry)
    (h : st.devices.lookup de.qualifiedName = none) :
    addDevice spec st de =
      { st with devices := st.devices.insert de.qualifiedName ⟨de, spec⟩ } := by
  unfold addDevice
  simp [Device.GetQualifiedName, h]

theorem addDevice_higher (spec : Spec) (st : RefreshState) (de : DeviceEntry) (other : Device)
    (h : st.devices.lookup de.qualifiedName = some other)
    (hp : other.spec.priority < spec.priority) :
    addDevice spec st de =
      { st with devices := st.devices.insert de.qualifiedName ⟨de, spec⟩ } := by
  unfold addDevice
  simp [Device.GetQualifiedName, h, resolveConflict, Device.GetSpec, Spec.GetPriority, hp]

theorem addDevice_equal (spec : Spec) (st : RefreshState) (de : DeviceEntry) (other : Device)
    (h : st.devices.lookup de.qualifiedName = some other)
    (hp : spec.priority = other.spec.priority) :
    addDevice spec st de = collided spec st de other := by
  unfold addDevice collided
  simp [Device.GetQualifiedName, h, resolveConflict, Device.GetSpec, Spec.GetPriority,
    Spec.GetPath, hp, collectError_conflicts]

theorem addDevice_lower (spec : Spec) (st : RefreshState) (de : DeviceEntry) (other : Device)
    (h : st.devices.lookup de.qualifiedName = some other)
    (hp : spec.priority < other.spec.priority) :
    addDevice spec st de = st := by
  unfold addDevice
  have h1 : ¬ other.spec.priority < spec.priority := not_lt.mpr (le_of_lt hp)
  have h2 : ¬ spec.priority = other.spec.priority := ne_of_lt hp
  simp [Device.GetQualifiedName, h, resolveConflict, Device.GetSpec, Spec.GetPriority, h1, h2]

theorem addDevice_cases (spec : Spec) (st : RefreshState) (de : DeviceEntry) :
    addDevice spec st de = { st with devices := st.devices.insert de.qualifiedName ⟨de, spec⟩ } ∨
    (∃ other, st.devices.lookup de.qualifiedName = some other ∧
      spec.priority = other.spec.priority ∧ addDevice spec st de = collided spec st de other) ∨
    addDevice spec st de = st := by
  cases hl : st.devices.lookup de.qualifiedName with
  | none => exact Or.inl (addDevice_none spec st de hl)
  | some other =>
    rcases lt_trichotomy spec.priority other.spec.priority with hp | hp | hp
    · exact Or.inr (Or.inr (addDevice_lower spec st de other hl hp))
    · exact Or.inr (Or.inl ⟨other, rfl, hp, addDevice_equal spec st de other hl hp⟩)
    · exact Or.inl (addDevice_higher spec st de other hl hp)

theorem grows_collided (spec : Spec) (st : RefreshState) (de : DeviceEntry) (other : Device) :
    Grows st (collided spec st de other) :=
  grows_collectError st _ _

theorem grows_addDevice (spec : Spec) (st : RefreshState) (de : DeviceEntry) :
    Grows st (addDevice spec st de) := by
  rcases addDevice_cases spec st de with h | ⟨other, -, -, h⟩ | h
  · rw [h]
    exact ⟨fun _ h => h, fun _ _ h => h⟩
  · rw [h]
    exact grows_collided spec st de other
  · rw [h]
    exact Grows.refl st

theorem grows_foldl_addDevice (spec : Spec) (des : List DeviceEntry) (st : RefreshState) :
    Grows st (des.foldl (addDevice spec) st) := by
  induction des generalizing st with
  | nil => exact Grows.refl st
  | cons de des ih => exact (grows_addDevice spec st de).trans (ih _)

theorem grows_scanCallback (clean : String → String) (st : RefreshState) (e : ScanEntry) :
    Grows st (scanCallback clean st e) := by
  cases e with
  | failed path prio err => exact grows_collectError st _ _
  | loaded path prio spec =>
    have h0 : Grows st (recordSpec st spec) := ⟨fun _ h => h, fun _ _ h => h⟩
    exact h0.trans (grows_foldl_addDevice spec spec.devices _)

theorem grows_foldl_scanCallback (clean : String → String) (scan : List ScanEntry)
    (st : RefreshState) : Grows st (scan.foldl (scanCallback clean) st) := by
  induction scan generalizing st with
  | nil => exact Grows.refl st
  | cons e scan ih => exact (grows_scanCallback clean st e).trans (ih _)

theorem conflictsMarked_init : ConflictsMarked RefreshState.init := by
  refine ⟨?_, ?_⟩
  · intro k a b h
    simp [RefreshState.init] at h
  · intro p k a b h
    simp [RefreshState.init, getSlice] at h

theorem isSome_lookup_insert_unit (m : GoMap Unit) (k n : String)
    (h : n = k ∨ (m.lookup n).isSome = true) : ((m.insert k ()).lookup n).isSome = true := by
  rw [AList.lookup_isSome, AList.mem_insert]
  rcases h with h | h
  · exact Or.inl h
  · exact Or.inr (AList.lookup_isSome.mp h)

theorem conflictsMarked_addDevice (spec : Spec) (st : RefreshState) (de : DeviceEntry)
    (h : ConflictsMarked st) : ConflictsMarked (addDevice spec st de) := by
  rcases addDevice_cases spec st de with h1 | ⟨other, -, -, h1⟩ | h1
  · rw [h1]
    exact h
  · rw [h1]
    refine ⟨?_, ?_⟩
    · intro k a b hk
      have hk2 : Error.conflict k a b ∈ st.result ++
          [Error.conflict de.qualifiedName spec.path other.spec.path] := by
        rw [← collectError_result st _ [spec.path, other.spec.path]]
        exact hk
      apply isSome_lookup_insert_unit
      rcases List.mem_append.mp hk2 with hk3 | hk3
      · exact Or.inr (h.1 k a b hk3)
      · rw [List.mem_singleton] at hk3
        injection hk3 with hk4
        exact Or.inl hk4
    · intro p k a b hk
      have hk2 := (mem_getSlice_collectError st _ _ [spec.path, other.spec.path] p).mp hk
      apply isSome_lookup_insert_unit
      rcases hk2 with hk3 | ⟨hk3, -⟩
      · exact Or.inr (h.2 p k a b hk3)
      · injection hk3 with hk4
        exact Or.inl hk4
  · rw [h1]
    exact h

theorem conflictsMarked_foldl_addDevice (spec : Spec) (des : List DeviceEntry)
    (st : RefreshState) (h : ConflictsMarked st) :
    ConflictsMarked (des.foldl (addDevice spec) st) := by
  induction des generalizing st with
  | nil => exact h
  | cons de des ih => exact ih _ (conflictsMarked_addDevice spec st de h)

theorem conflictsMarked_scanCallback (clean : String → String) (st : RefreshState)
    (e : ScanEntry) (h : ConflictsMarked st) : ConflictsMarked (scanCallback clean st e) := by
  cases e with
  | failed path prio err =>
    refine ⟨?_, ?_⟩
    · intro k a b hk
      simp only [scanCallback, collectError_result, List.mem_append, List.mem_singleton] at hk
      simp only [scanCallback, collectError_conflicts]
      rcases hk with hk | hk
      · exact h.1 k a b hk
      · cases hk
    · intro p k a b hk
      simp only [scanCallback, mem_getSlice_collectError] at hk
      simp only [scanCallback, collectError_conflicts]
      rcases hk with hk | ⟨hk, -⟩
      · exact h.2 p k a b hk
      · cases hk
  | loaded path prio spec =>
    exact conflictsMarked_foldl_addDevice spec spec.devices _ h

theorem conflictsMarked_foldl_scanCallback (clean : String → String) (scan : List ScanEntry)
    (st : RefreshState) (h : ConflictsMarked st) :
    ConflictsMarked (scan.foldl (scanCallback clean) st) := by
  induction scan generalizing st with
  | nil => exact h
  | cons e scan ih => exact ih _ (conflictsMarked_scanCallback clean st e h)

theorem conflictsMarked_scanAll (env : Env) : ConflictsMarked (scanAll env) :=
  conflictsMarked_foldl_scanCallback env.clean env.scan _ conflictsMarked_init

theorem aggregated_refresh (env : Env) (c : Cache) :
    aggregated (c.refresh env).2 = (scanAll env).result := by
  unfold Cache.refresh aggregated
  simp only
  split_ifs with h
  · rfl
  · simp only [Option.getD_none]
    have : (scanAll env).result.length = 0 := by omega
    exact (List.length_eq_zero.mp this).symm

/-! ## Conflict resolution -/

/-- C1: when a scan delivers descriptors in ascending priority order and two descriptors
of equal priority both declare the qualified name `n`, the registry `refresh` builds
has no entry for `n` and `GetDevice n` finds nothing, whatever else the scan holds
(descriptors of lower priority declaring `n` included). -/
theorem C1_equal_priority_excluded (env : Env) (c : Cache) (n : String)
    (pre mid post : List ScanEntry) (p1 p2 : String) (q1 q2 : Int) (s1 s2 : Spec)
    (hscan : env.scan =
      pre ++ ScanEntry.loaded p1 q1 s1 :: mid ++ ScanEntry.loaded p2 q2 s2 :: post)
    (hasc : Ascending env.scan)
    (hprio : s1.priority = s2.priority)
    (h1 : n ∈ s1.devices.map DeviceEntry.qualifiedName)
    (h2 : n ∈ s2.devices.map DeviceEntry.qualifiedName) :
    (c.refresh env).1.devices.lookup n = none ∧
      (Cache.GetDevice env (c.refresh env).1 n).2 = none := by
  have hmarked : (view n (scanAll env)).2 = true := by
    rw [view_scanAll]
    have hpw := definitions_pairwise n env.scan hasc
    obtain ⟨d1, hd1, hs1⟩ := exists_specDefinition h1
    obtain ⟨d2, hd2, hs2⟩ := exists_specDefinition h2
    obtain ⟨X1, X2, hX⟩ := List.append_of_mem hd1
    obtain ⟨Y1, Y2, hY⟩ := List.append_of_mem hd2
    have hdefs : definitions n env.scan =
        (definitions n pre ++ X1) ++ d1 :: (X2 ++ definitions n mid ++ Y1) ++ d2 ::
          (Y2 ++ definitions n post) := by
      rw [hscan, definitions_append, definitions_append, definitions_loaded, definitions_loaded,
        hX, hY]
      simp [List.append_assoc]
    rw [hdefs] at hpw ⊢
    exact foldl_viewStep_equal_marks _ _ _ d1 d2 hpw (by rw [hs1, hs2, hprio])
  have hlook : (freshDevices env).lookup n = none := by
    rw [lookup_freshDevices, hmarked]
    rfl
  exact ⟨by rw [refresh_devices]; exact hlook, by rw [getDevice_after_refresh]; exact hlook⟩

/-- C1 at a scan of a priority-0 descriptor followed by two priority-1 descriptors, all
declaring `acme/gpu=dev0`. -/
theorem C1_equal_priority_excluded_witness :
    (exCache.refresh exEnvConflict).1.devices.lookup "acme/gpu=dev0" = none ∧
      (Cache.GetDevice exEnvConflict (exCache.refresh exEnvConflict).1 "acme/gpu=dev0").2 = none :=
  C1_equal_priority_excluded exEnvConflict exCache "acme/gpu=dev0"
    [ScanEntry.loaded "/etc/cdi/low.json" 0 exSpecLow] [] []
    "/run/cdi/a.json" "/run/cdi/b.json" 1 1 exSpecA exSpecB rfl
    (by simp [Ascending, loadedSpecs, exEnvConflict, exSpecLow, exSpecA, exSpecB])
    rfl (by decide) (by decide)

/-- C2: when the definitions of the qualified name `n` in a scan have pairwise distinct
priorities (each descriptor declaring `n` once), then after `refresh` `GetDevice n`
returns the definition of highest priority, and no conflict error on `n` is in the
aggregate `refresh` returns nor recorded under any path.  This holds for every scan
order, the ascending one in particular. -/
theorem C2_priority_override (env : Env) (c : Cache) (n : String) (d : Device)
    (hdistinct : ((definitions n env.scan).map (fun x => x.spec.priority)).Nodup)
    (hd : d ∈ definitions n env.scan)
    (hmax : ∀ x ∈ definitions n env.scan, x.spec.priority ≤ d.spec.priority) :
    (Cache.GetDevice env (c.refresh env).1 n).2 = some d ∧
      (∀ a b, Error.conflict n a b ∉ aggregated (c.refresh env).2) ∧
      (∀ p a b, Error.conflict n a b ∉ getSlice (c.refresh env).1.errors p) := by
  have hview : view n (scanAll env) = (some d, false) := by
    rw [view_scanAll]
    exact foldl_viewStep_distinct _ d hdistinct hd hmax
  have hunmarked : ((scanAll env).conflicts.lookup n).isSome = false := by
    have := congrArg Prod.snd hview
    simpa [view] using this
  refine ⟨?_, ?_, ?_⟩
  · rw [getDevice_after_refresh, lookup_freshDevices, hview]
    rfl
  · intro a b hmem
    rw [aggregated_refresh] at hmem
    have := (conflictsMarked_scanAll env).1 n a b hmem
    rw [hunmarked] at this
    cases this
  · intro p a b hmem
    rw [refresh_errors] at hmem
    have := (conflictsMarked_scanAll env).2 p n a b hmem
    rw [hunmarked] at this
    cases this

/-- C2 at a scan of a priority-0 and a priority-1 descriptor declaring `acme/gpu=dev0`. -/
theorem C2_priority_override_witness :
    (Cache.GetDevice exEnvOverride (exCache.refresh exEnvOverride).1 "acme/gpu=dev0").2 =
        some ⟨exDev0, exSpecA⟩ ∧
      (∀ a b, Error.conflict "acme/gpu=dev0" a b ∉
        aggregated (exCache.refresh exEnvOverride).2) ∧
      (∀ p a b, Error.conflict "acme/gpu=dev0" a b ∉
        getSlice (exCache.refresh exEnvOverride).1.errors p) :=
  C2_priority_override exEnvOverride exCache "acme/gpu=dev0" ⟨exDev0, exSpecA⟩
    (by decide) (by decide) (by decide)

/-- C8: when the scan callback reaches a device entry `de` of the descriptor `spec`
while the device recorded under the same qualified name belongs to a descriptor of
equal priority (an equal-priority collision), then after `refresh` the error lists of
both descriptor paths contain the conflict error naming the device and the two paths,
and `refresh` returns an aggregate that contains it. -/
theorem C8_conflict_error_recorded (env : Env) (c : Cache) (pre post : List ScanEntry)
    (path : String) (prio : Int) (spec : Spec) (dpre dpost : List DeviceEntry)
    (de : DeviceEntry) (old : Device)
    (hscan : env.scan = pre ++ ScanEntry.loaded path prio spec :: post)
    (hdevs : spec.devices = dpre ++ de :: dpost)
    (hold : (stateAt env.clean pre spec dpre).devices.lookup de.qualifiedName = some old)
    (hprio : spec.priority = old.spec.priority) :
    Error.conflict de.qualifiedName spec.path old.spec.path ∈
        getSlice (c.refresh env).1.errors spec.path ∧
      Error.conflict de.qualifiedName spec.path old.spec.path ∈
        getSlice (c.refresh env).1.errors old.spec.path ∧
      ∃ errs, (c.refresh env).2 = some errs ∧
        Error.conflict de.qualifiedName spec.path old.spec.path ∈ errs := by
  have hall : scanAll env =
      post.foldl (scanCallback env.clean)
        (dpost.foldl (addDevice spec) (addDevice spec (stateAt env.clean pre spec dpre) de)) := by
    unfold scanAll stateAt
    rw [hscan, List.foldl_append, List.foldl_cons]
    simp only [scanCallback]
    rw [hdevs, List.foldl_append, List.foldl_cons]
  have hgrow : Grows (addDevice spec (stateAt env.clean pre spec dpre) de) (scanAll env) := by
    rw [hall]
    exact (grows_foldl_addDevice spec dpost _).trans (grows_foldl_scanCallback env.clean post _)
  rw [addDevice_equal spec _ de old hold hprio] at hgrow
  have hres : Error.conflict de.qualifiedName spec.path old.spec.path ∈ (scanAll env).result := by
    apply hgrow.1
    show _ ∈ (collectError _ _ _).result
    rw [collectError_result]
    simp
  have hslice : ∀ p, p ∈ [spec.path, old.spec.path] →
      Error.conflict de.qualifiedName spec.path old.spec.path ∈
        getSlice (scanAll env).specErrors p := by
    intro p hp
    apply hgrow.2
    show _ ∈ getSlice (collectError _ _ _).specErrors p
    rw [mem_getSlice_collectError]
    exact Or.inr ⟨rfl, hp⟩
  refine ⟨hslice _ (by simp), hslice _ (by simp), (scanAll env).result, ?_, hres⟩
  unfold Cache.refresh
  simp only
  rw [if_pos (List.length_pos_of_mem hres)]

/-- C8 at the collision of the two priority-1 descriptors of the example scan. -/
theorem C8_conflict_error_recorded_witness :
    Error.conflict "acme/gpu=dev0" "/run/cdi/b.json" "/run/cdi/a.json" ∈
        getSlice (exCache.refresh exEnvConflict).1.errors "/run/cdi/b.json" ∧
      Error.conflict "acme/gpu=dev0" "/run/cdi/b.json" "/run/cdi/a.json" ∈
        getSlice (exCache.refresh exEnvConflict).1.errors "/run/cdi/a.json" ∧
      ∃ errs, (exCache.refresh exEnvConflict).2 = some errs ∧
        Error.conflict "acme/gpu=dev0" "/run/cdi/b.json" "/run/cdi/a.json" ∈ errs :=
  C8_conflict_error_recorded exEnvConflict exCache
    [ScanEntry.loaded "/etc/cdi/low.json" 0 exSpecLow,
     ScanEntry.loaded "/run/cdi/a.json" 1 exSpecA] []
    "/run/cdi/b.json" 1 exSpecB [] [] exDev0 ⟨exDev0, exSpecA⟩ rfl rfl (by decide) rfl

/-! ## Injection: unresolved names -/

theorem injectStep_none (registry : GoMap Device) (st : InjectState) (n : String)
    (h : registry.lookup n = none) :
    injectStep registry st n = { st with unresolved := st.unresolved ++ [n] } := by
  unfold injectStep
  simp [h]

theorem injectStep_seen (registry : GoMap Device) (st : InjectState) (n : String) (d : Device)
    (h : registry.lookup n = some d) (hs : d.spec.addr ∈ st.specs) :
    injectStep registry st n = { st with edits := st.edits.Append d.entry.edits } := by
  unfold injectStep
  simp [h, Device.GetSpec, Device.edits, hs]

theorem injectStep_new (registry : GoMap Device) (st : InjectState) (n : String) (d : Device)
    (h : registry.lookup n = some d) (hs : d.spec.addr ∉ st.specs) :
    injectStep registry st n =
      { st with specs := d.spec.addr :: st.specs
                edits := (st.edits.Append d.spec.edits).Append d.entry.edits } := by
  unfold injectStep
  simp [h, Device.GetSpec, Device.edits, Spec.getEdits, hs]

theorem injectStep_unresolved_some (registry : GoMap Device) (st : InjectState) (n : String)
    (d : Device) (h : registry.lookup n = some d) :
    (injectStep registry st n).unresolved = st.unresolved := by
  by_cases hs : d.spec.addr ∈ st.specs
  · rw [injectStep_seen registry st n d h hs]
  · rw [injectStep_new registry st n d h hs]

theorem foldl_injectStep_unresolved (registry : GoMap Device) (devices : List String)
    (st : InjectState) :
    (devices.foldl (injectStep registry) st).unresolved =
      st.unresolved ++ absentNames registry devices := by
  induction devices generalizing st with
  | nil => simp [absentNames]
  | cons n ns ih =>
    rw [List.foldl_cons, ih]
    cases h : registry.lookup n with
    | none =>
      rw [injectStep_none registry st n h]
      simp [absentNames, h]
    | some d =>
      rw [injectStep_unresolved_some registry st n d h]
      simp [absentNames, h]

theorem injectLoop_unresolved (registry : GoMap Device) (devices : List String) :
    (injectLoop registry devices).unresolved = absentNames registry devices := by
  unfold injectLoop
  rw [foldl_injectStep_unresolved]
  rfl

theorem absentNames_eq_nil (registry : GoMap Device) (devices : List String) :
    absentNames registry devices = [] ↔ ∀ n ∈ devices, (registry.lookup n).isSome = true := by
  unfold absentNames
  rw [List.filter_eq_nil_iff]
  constructor
  · intro h n hn
    have := h n hn
    cases hl : registry.lookup n with
    | none => simp [hl] at this
    | some d => rfl
  · intro h n hn
    have := h n hn
    cases hl : registry.lookup n with
    | none => simp [hl] at this
    | some d => simp

theorem injectDevices_unresolved (env : Env) (c : Cache) (spec : OCISpec)
    (devices : List String) :
    (c.InjectDevices env (some spec) devices).unresolved =
      absentNames (c.registry env) devices := by
  have hloop := injectLoop_unresolved (c.registry env) devices
  unfold Cache.registry at hloop ⊢
  unfold Cache.InjectDevices
  simp only
  by_cases hu : (injectLoop (c.refreshIfRequired env false).1.devices devices).unresolved = []
  · rw [if_neg (not_not.mpr hu)]
    rw [← hloop, hu]
    cases (injectLoop (c.refreshIfRequired env false).1.devices devices).edits.Apply (some spec) <;> rfl
  · rw [if_pos hu]
    exact hloop

theorem injectDevices_of_unresolved (env : Env) (c : Cache) (spec : OCISpec)
    (devices : List String) (h : absentNames (c.registry env) devices ≠ []) :
    c.InjectDevices env (some spec) devices =
      { cache := (c.refreshIfRequired env false).1, ociSpec := some spec
        unresolved := absentNames (c.registry env) devices
        err := some (Error.unresolvable (String.intercalate ", " devices)) } := by
  have hloop := injectLoop_unresolved (c.registry env) devices
  unfold Cache.registry at hloop h
  unfold Cache.InjectDevices Cache.registry
  simp only
  rw [if_pos (by rw [hloop]; exact h), hloop]

theorem injectDevices_of_resolved (env : Env) (c : Cache) (spec : OCISpec)
    (devices : List String) (h : absentNames (c.registry env) devices = []) :
    c.InjectDevices env (some spec) devices =
      { cache := (c.refreshIfRequired env false).1
        ociSpec := some
          { env := (injectLoop (c.registry env) devices).edits.env.foldl addEnv spec.env
            devices := spec.devices ++ (injectLoop (c.registry env) devices).edits.deviceNodes
            hooks := spec.hooks ++ (injectLoop (c.registry env) devices).edits.hooks
            mounts := spec.mounts ++ (injectLoop (c.registry env) devices).edits.mounts }
        unresolved := []
        err := none } := by
  have hloop := injectLoop_unresolved (c.registry env) devices
  unfold Cache.registry at hloop h ⊢
  unfold Cache.InjectDevices
  simp only
  rw [if_neg (by rw [hloop, h]; simp)]
  rfl

/-- C3: with a target specification present, when at least one requested name is absent
from the registry, `InjectDevices` returns an error and the target specification is the
one passed in: no edit of any requested device is applied. -/
theorem C3_injection_all_or_nothing (env : Env) (c : Cache) (spec : OCISpec)
    (devices : List String)
    (hmissing : ∃ n ∈ devices, (c.registry env).lookup n = none) :
    (c.InjectDevices env (some spec) devices).err ≠ none ∧
      (c.InjectDevices env (some spec) devices).ociSpec = some spec := by
  have hne : absentNames (c.registry env) devices ≠ [] := by
    intro h
    obtain ⟨n, hn, hl⟩ := hmissing
    have := (absentNames_eq_nil _ _).mp h n hn
    rw [hl] at this
    cases this
  rw [injectDevices_of_unresolved env c spec devices hne]
  exact ⟨by simp, rfl⟩

/-- C3 at the request of two registered devices and one name that is not registered. -/
theorem C3_injection_all_or_nothing_witness :
    (exCacheInject.InjectDevices exEnvInject (some exOCISpec)
        ["acme/gpu=a", "acme/gpu=b", "acme/gpu=missing"]).err ≠ none ∧
      (exCacheInject.InjectDevices exEnvInject (some exOCISpec)
        ["acme/gpu=a", "acme/gpu=b", "acme/gpu=missing"]).ociSpec = some exOCISpec :=
  C3_injection_all_or_nothing exEnvInject exCacheInject exOCISpec
    ["acme/gpu=a", "acme/gpu=b", "acme/gpu=missing"]
    ⟨"acme/gpu=missing", by decide, by decide⟩

/-- C4: with a target specification present, the unresolved list `InjectDevices` returns
is the list of the requested names absent from the registry, every one of them and in
request order, and it is empty exactly when every requested name resolves. -/
theorem C4_unresolved_names (env : Env) (c : Cache) (spec : OCISpec) (devices : List String) :
    (c.InjectDevices env (some spec) devices).unresolved =
        devices.filter (fun n => ((c.registry env).lookup n).isNone) ∧
      ((c.InjectDevices env (some spec) devices).unresolved = [] ↔
        ∀ n ∈ devices, ((c.registry env).lookup n).isSome = true) := by
  rw [injectDevices_unresolved]
  exact ⟨rfl, absentNames_eq_nil _ _⟩

/-! ## Injection: the changeset -/

theorem filter_notin_of_mem (l : List Spec) (seen : List Nat) (a : Nat) (ha : a ∈ seen) :
    (l.filter (fun s => decide (s.addr ≠ a))).filter (fun s => decide (s.addr ∉ seen)) =
      l.filter (fun s => decide (s.addr ∉ seen)) := by
  rw [List.filter_filter]
  apply List.filter_congr
  intro x _
  by_cases hx : x.addr ∈ seen
  · simp [hx]
  · have : x.addr ≠ a := fun e => hx (e ▸ ha)
    simp [hx, this]

theorem filter_notin_cons (l : List Spec) (seen : List Nat) (a : Nat) :
    (l.filter (fun s => decide (s.addr ≠ a))).filter (fun s => decide (s.addr ∉ seen)) =
      l.filter (fun s => decide (s.addr ∉ a :: seen)) := by
  rw [List.filter_filter]
  apply List.filter_congr
  intro x _
  by_cases hx : x.addr ∈ seen <;> by_cases hxa : x.addr = a <;> simp [hx, hxa]

theorem foldl_injectStep_perm {α : Type} (f : ContainerEdits → List α)
    (hf : ∀ a b, f (a.Append b) = f a ++ f b) (registry : GoMap Device)
    (devices : List String) (st : InjectState) :
    (f (devices.foldl (injectStep registry) st).edits).Perm
      (f st.edits ++
        ((((distinctSpecs (resolvedDevices registry devices)).filter
            (fun s => decide (s.addr ∉ st.specs))).flatMap (fun s => f s.edits)) ++
          (resolvedDevices registry devices).flatMap (fun d => f d.entry.edits))) := by
  induction devices generalizing st with
  | nil => simp [resolvedDevices, distinctSpecs]
  | cons n ns ih =>
    rw [List.foldl_cons]
    cases h : registry.lookup n with
    | none =>
      have hrd : resolvedDevices registry (n :: ns) = resolvedDevices registry ns := by
        simp [resolvedDevices, h]
      rw [hrd, injectStep_none registry st n h]
      exact ih _
    | some d =>
      have hrd : resolvedDevices registry (n :: ns) = d :: resolvedDevices registry ns := by
        simp [resolvedDevices, h]
      rw [hrd]
      by_cases hs : d.spec.addr ∈ st.specs
      · rw [injectStep_seen registry st n d h hs]
        refine (ih _).trans ?_
        simp only [hf, distinctSpecs, List.flatMap_cons]
        have hdrop : (d.spec :: (distinctSpecs (resolvedDevices registry ns)).filter
              (fun s => decide (s.addr ≠ d.spec.addr))).filter
              (fun s => decide (s.addr ∉ st.specs)) =
            (distinctSpecs (resolvedDevices registry ns)).filter
              (fun s => decide (s.addr ∉ st.specs)) := by
          rw [List.filter_cons_of_neg (by simpa using hs)]
          exact filter_notin_of_mem _ _ _ hs
        rw [hdrop, List.append_assoc]
        exact List.Perm.append_left _ (List.perm_append_comm_assoc _ _ _)
      · rw [injectStep_new registry st n d h hs]
        refine (ih _).trans ?_
        simp only [hf, distinctSpecs, List.flatMap_cons]
        have hkeep : (d.spec :: (distinctSpecs (resolvedDevices registry ns)).filter
              (fun s => decide (s.addr ≠ d.spec.addr))).filter
              (fun s => decide (s.addr ∉ st.specs)) =
            d.spec :: (distinctSpecs (resolvedDevices registry ns)).filter
              (fun s => decide (s.addr ∉ d.spec.addr :: st.specs)) := by
          rw [List.filter_cons_of_pos (by simpa using hs)]
          rw [filter_notin_cons]
        rw [hkeep, List.flatMap_cons]
        simp only [List.append_assoc]
        exact List.Perm.append_left _ (List.Perm.append_left _ (List.perm_append_comm_assoc _ _ _))

theorem injectLoop_perm {α : Type} (f : ContainerEdits → List α)
    (hf : ∀ a b, f (a.Append b) = f a ++ f b) (h0 : f ContainerEdits.empty = [])
    (registry : GoMap Device) (devices : List String) :
    (f (injectLoop registry devices).edits).Perm
      ((distinctSpecs (resolvedDevices registry devices)).flatMap (fun s => f s.edits) ++
        (resolvedDevices registry devices).flatMap (fun d => f d.entry.edits)) := by
  have h := foldl_injectStep_perm f hf registry devices
    { unresolved := [], edits := ContainerEdits.empty, specs := [] }
  simpa [injectLoop, h0] using h

theorem foldl_injectStep_edits (registry : GoMap Device) (devices : List String)
    (st : InjectState) (earlier : List Device)
    (hseen : ∀ a, a ∈ st.specs ↔ a ∈ earlier.map (fun e => e.spec.addr)) :
    (devices.foldl (injectStep registry) st).edits =
      (editsInRequestOrder earlier (resolvedDevices registry devices)).foldl
        ContainerEdits.Append st.edits := by
  induction devices generalizing st earlier with
  | nil => simp [resolvedDevices, editsInRequestOrder]
  | cons n ns ih =>
    rw [List.foldl_cons]
    cases h : registry.lookup n with
    | none =>
      have hrd : resolvedDevices registry (n :: ns) = resolvedDevices registry ns := by
        simp [resolvedDevices, h]
      rw [hrd, injectStep_none registry st n h]
      exact ih _ earlier hseen
    | some d =>
      have hrd : resolvedDevices registry (n :: ns) = d :: resolvedDevices registry ns := by
        simp [resolvedDevices, h]
      rw [hrd]
      have hany : (earlier.any (fun e => e.spec.addr == d.spec.addr)) = true ↔
          d.spec.addr ∈ st.specs := by
        rw [hseen, List.any_eq_true, List.mem_map]
        constructor
        · rintro ⟨e, he, heq⟩
          exact ⟨e, he, by simpa using heq⟩
        · rintro ⟨e, he, heq⟩
          exact ⟨e, he, by simpa using heq⟩
      by_cases hs : d.spec.addr ∈ st.specs
      · rw [injectStep_seen registry st n d h hs]
        rw [ih _ (earlier ++ [d])]
        · simp [editsInRequestOrder, hany.mpr hs]
        · intro a
          simp only [List.map_append, List.mem_append, List.map_cons, List.map_nil,
            List.mem_singleton]
          rw [← hseen]
          constructor
          · exact fun ha => Or.inl ha
          · rintro (ha | ha)
            · exact ha
            · exact ha ▸ hs
      · rw [injectStep_new registry st n d h hs]
        have hnany : ¬ (earlier.any (fun e => e.spec.addr == d.spec.addr)) = true :=
          fun hh => hs (hany.mp hh)
        rw [ih _ (earlier ++ [d])]
        · simp [editsInRequestOrder, hnany]
        · intro a
          simp only [List.map_append, List.mem_append, List.map_cons, List.map_nil,
            List.mem_singleton, List.mem_cons]
          rw [← hseen]
          tauto

theorem injectLoop_edits (registry : GoMap Device) (devices : List String) :
    (injectLoop registry devices).edits =
      (editsInRequestOrder [] (resolvedDevices registry devices)).foldl
        ContainerEdits.Append ContainerEdits.empty := by
  unfold injectLoop
  rw [foldl_injectStep_edits registry devices _ [] (by simp)]

/-- C5: when every requested name resolves, the changeset `InjectDevices` builds holds,
in each category of edits, the spec-level edits of every distinct owning descriptor once
and the device-level edits of every requested device once per request; it is applied to
the target, so a mount occurs in the resulting specification as often as in the target
before, plus once per occurrence in the spec-level edits of a distinct owning descriptor,
plus once per occurrence in the device-level edits of a request. -/
theorem C5_spec_edits_once (env : Env) (c : Cache) (spec : OCISpec) (devices : List String)
    (hres : ∀ n ∈ devices, ((c.registry env).lookup n).isSome = true) :
    ((injectLoop (c.registry env) devices).edits.env.Perm
        ((distinctSpecs (resolvedDevices (c.registry env) devices)).flatMap (fun s => s.edits.env) ++
          (resolvedDevices (c.registry env) devices).flatMap (fun d => d.entry.edits.env))) ∧
      ((injectLoop (c.registry env) devices).edits.deviceNodes.Perm
        ((distinctSpecs (resolvedDevices (c.registry env) devices)).flatMap
            (fun s => s.edits.deviceNodes) ++
          (resolvedDevices (c.registry env) devices).flatMap
            (fun d => d.entry.edits.deviceNodes))) ∧
      ((injectLoop (c.registry env) devices).edits.hooks.Perm
        ((distinctSpecs (resolvedDevices (c.registry env) devices)).flatMap (fun s => s.edits.hooks) ++
          (resolvedDevices (c.registry env) devices).flatMap (fun d => d.entry.edits.hooks))) ∧
      ((injectLoop (c.registry env) devices).edits.mounts.Perm
        ((distinctSpecs (resolvedDevices (c.registry env) devices)).flatMap (fun s => s.edits.mounts) ++
          (resolvedDevices (c.registry env) devices).flatMap (fun d => d.entry.edits.mounts))) ∧
      ∃ final, (c.InjectDevices env (some spec) devices).ociSpec = some final ∧
        (c.InjectDevices env (some spec) devices).err = none ∧
        final.mounts = spec.mounts ++ (injectLoop (c.registry env) devices).edits.mounts ∧
        ∀ m, final.mounts.count m =
          spec.mounts.count m +
            ((distinctSpecs (resolvedDevices (c.registry env) devices)).flatMap
              (fun s => s.edits.mounts)).count m +
            ((resolvedDevices (c.registry env) devices).flatMap
              (fun d => d.entry.edits.mounts)).count m := by
  have hmounts := injectLoop_perm (fun e => e.mounts) (fun _ _ => rfl) rfl (c.registry env) devices
  refine ⟨injectLoop_perm (fun e => e.env) (fun _ _ => rfl) rfl _ _,
    injectLoop_perm (fun e => e.deviceNodes) (fun _ _ => rfl) rfl _ _,
    injectLoop_perm (fun e => e.hooks) (fun _ _ => rfl) rfl _ _, hmounts, ?_⟩
  rw [injectDevices_of_resolved env c spec devices ((absentNames_eq_nil _ _).mpr hres)]
  refine ⟨_, rfl, rfl, rfl, ?_⟩
  intro m
  simp only [List.count_append]
  have := hmounts.count_eq m
  simp only [List.count_append] at this
  omega

/-- C5 at the request of `beta/nic=c` and `beta/nic=d`, two devices of one descriptor
whose spec-level edits add one mount. -/
theorem C5_spec_edits_once_witness :
    (∀ n ∈ ["beta/nic=c", "beta/nic=d"],
        ((exCacheInject.registry exEnvInject).lookup n).isSome = true) ∧
      ∃ final, (exCacheInject.InjectDevices exEnvInject (some exOCISpec)
          ["beta/nic=c", "beta/nic=d"]).ociSpec = some final ∧
        final.mounts.count exMountShared = 1 := by
  have hres : ∀ n ∈ ["beta/nic=c", "beta/nic=d"],
      ((exCacheInject.registry exEnvInject).lookup n).isSome = true := by decide
  obtain ⟨-, -, -, -, final, hfinal, -, -, hcount⟩ :=
    C5_spec_edits_once exEnvInject exCacheInject exOCISpec ["beta/nic=c", "beta/nic=d"] hres
  refine ⟨hres, final, hfinal, ?_⟩
  rw [hcount]
  decide

/-- C6 fails as stated: requesting `acme/gpu=a` (a device with a device-level mount)
and then `beta/nic=c` (whose descriptor adds a spec-level mount) yields a specification
that lists the device-level mount before the spec-level one, not the specification the
order "all spec-level edits, then all device-level edits" would yield. -/
theorem C6_spec_edits_first_counterexample :
    (exCacheInject.InjectDevices exEnvInject (some exOCISpec)
        ["acme/gpu=a", "beta/nic=c"]).ociSpec =
        some { env := [], devices := [], hooks := [],
               mounts := [exMountDevice, exMountShared] } ∧
      ((specEditsFirst (resolvedDevices (exCacheInject.registry exEnvInject)
        ["acme/gpu=a", "beta/nic=c"])).Apply (some exOCISpec)).toOption =
        some { env := [], devices := [], hooks := [],
               mounts := [exMountShared, exMountDevice] } := by
  decide

/-- C6 as amended: when every requested name resolves, the changeset `InjectDevices`
applies to the target is built in request order: for each requested device the
spec-level edits of its descriptor, unless an earlier requested device belongs to the
same descriptor, directly followed by the device-level edits of that device. -/
theorem C6_edits_in_request_order (env : Env) (c : Cache) (spec : OCISpec)
    (devices : List String)
    (hres : ∀ n ∈ devices, ((c.registry env).lookup n).isSome = true) :
    (injectLoop (c.registry env) devices).edits =
        (editsInRequestOrder [] (resolvedDevices (c.registry env) devices)).foldl
          ContainerEdits.Append ContainerEdits.empty ∧
      (c.InjectDevices env (some spec) devices).ociSpec =
        (((editsInRequestOrder [] (resolvedDevices (c.registry env) devices)).foldl
          ContainerEdits.Append ContainerEdits.empty).Apply (some spec)).toOption := by
  refine ⟨injectLoop_edits _ _, ?_⟩
  rw [injectDevices_of_resolved env c spec devices ((absentNames_eq_nil _ _).mpr hres),
    ← injectLoop_edits]
  rfl

/-- C6 as amended, at the request of `acme/gpu=a` and then `beta/nic=c`. -/
theorem C6_edits_in_request_order_witness :
    (injectLoop (exCacheInject.registry exEnvInject) ["acme/gpu=a", "beta/nic=c"]).edits =
        (editsInRequestOrder [] (resolvedDevices (exCacheInject.registry exEnvInject)
          ["acme/gpu=a", "beta/nic=c"])).foldl ContainerEdits.Append ContainerEdits.empty ∧
      (exCacheInject.InjectDevices exEnvInject (some exOCISpec)
          ["acme/gpu=a", "beta/nic=c"]).ociSpec =
        (((editsInRequestOrder [] (resolvedDevices (exCacheInject.registry exEnvInject)
          ["acme/gpu=a", "beta/nic=c"])).foldl
          ContainerEdits.Append ContainerEdits.empty).Apply (some exOCISpec)).toOption :=
  C6_edits_in_request_order exEnvInject exCacheInject exOCISpec ["acme/gpu=a", "beta/nic=c"]
    (by decide)

/-! ## The watch loop -/

theorem lor_eq_zero (a b : Nat) : a ||| b = 0 ↔ a = 0 ∧ b = 0 := by
  constructor
  · intro h
    have hbit : ∀ i, a.testBit i = false ∧ b.testBit i = false := by
      intro i
      have hi := congrArg (fun x => x.testBit i) h
      simpa [Nat.testBit_or] using hi
    exact ⟨Nat.zero_of_testBit_eq_false (fun i => (hbit i).1),
      Nat.zero_of_testBit_eq_false (fun i => (hbit i).2)⟩
  · rintro ⟨rfl, rfl⟩
    rfl

theorem mask_eq_zero (x : Nat) :
    x &&& (opRename ||| opRemove ||| opWrite) = 0 ↔
      (x &&& opRemove = 0 ∧ x &&& opRename = 0 ∧ x &&& opWrite = 0) := by
  rw [Nat.and_or_distrib_left, Nat.and_or_distrib_left]
  simp only [lor_eq_zero]
  tauto

/-- C9 fails as stated: an event whose operation is Create alone is skipped by the watch
loop, although Create is one of the four operations the claim lists. -/
theorem C9_create_event_counterexample :
    ¬ ((exCache.watchEvent exEnvEmpty ⟨"/etc/cdi/new.json", opCreate⟩).isSome = true ↔
      ((opCreate &&& opCreate ≠ 0 ∨ opCreate &&& opRemove ≠ 0 ∨ opCreate &&& opRename ≠ 0 ∨
          opCreate &&& opWrite ≠ 0) ∧
        (opCreate = opWrite →
          filepathExt "/etc/cdi/new.json" = ".json" ∨
            filepathExt "/etc/cdi/new.json" = ".yaml"))) := by
  decide

/-- C9 as amended: the watch loop reacts to an event (reconciles the watches and
refreshes) if and only if the operation of the event includes Remove, Rename or Write
and, when the operation is Write alone, the extension of the file is `.json` or `.yaml`;
every other event, one that is only a Create included, is skipped and leaves the cache
as it is. -/
theorem C9_relevant_events (env : Env) (c : Cache) (ev : Event) :
    ((c.watchEvent env ev).isSome = true ↔
      ((ev.op &&& opRemove ≠ 0 ∨ ev.op &&& opRename ≠ 0 ∨ ev.op &&& opWrite ≠ 0) ∧
        (ev.op = opWrite → filepathExt ev.name = ".json" ∨ filepathExt ev.name = ".yaml"))) ∧
      ((c.watchEvent env ev).isSome = true →
        c.watchEvent env ev =
          some (Cache.refresh env
            { c with
              watch := { tracked := (c.watch.update env.watchAdd c.dirErrors
                (if ev.op = opRemove ∧ c.watch.tracked.lookup ev.name = some true
                  then [ev.name] else [])).tracked }
              dirErrors := (c.watch.update env.watchAdd c.dirErrors
                (if ev.op = opRemove ∧ c.watch.tracked.lookup ev.name = some true
                  then [ev.name] else [])).dirErrors }).1) := by
  have hrel : relevantEvent ev = true ↔
      ((ev.op &&& opRemove ≠ 0 ∨ ev.op &&& opRename ≠ 0 ∨ ev.op &&& opWrite ≠ 0) ∧
        (ev.op = opWrite → filepathExt ev.name = ".json" ∨ filepathExt ev.name = ".yaml")) := by
    unfold relevantEvent
    by_cases hm : ev.op &&& (opRename ||| opRemove ||| opWrite) = 0
    · have h3 := (mask_eq_zero ev.op).mp hm
      simp only [hm, if_true, Bool.false_eq_true, false_iff, not_and]
      intro hor
      rcases hor with h | h | h
      · exact absurd h3.1 h
      · exact absurd h3.2.1 h
      · exact absurd h3.2.2 h
    · have h3 : ¬ (ev.op &&& opRemove = 0 ∧ ev.op &&& opRename = 0 ∧ ev.op &&& opWrite = 0) :=
        fun h => hm ((mask_eq_zero ev.op).mpr h)
      have hor : ev.op &&& opRemove ≠ 0 ∨ ev.op &&& opRename ≠ 0 ∨ ev.op &&& opWrite ≠ 0 := by
        by_contra hcon
        push_neg at hcon
        exact h3 hcon
      simp only [hm, if_false]
      by_cases hw : ev.op = opWrite ∧ filepathExt ev.name ≠ ".json" ∧ filepathExt ev.name ≠ ".yaml"
      · rw [if_pos hw]
        constructor
        · intro h
          cases h
        · rintro ⟨-, himp⟩
          rcases himp hw.1 with h | h
          · exact absurd h hw.2.1
          · exact absurd h hw.2.2
      · rw [if_neg hw]
        simp only [true_iff]
        refine ⟨hor, ?_⟩
        intro heq
        by_contra hcon
        push_neg at hcon
        exact hw ⟨heq, hcon.1, hcon.2⟩
  have hsome : (c.watchEvent env ev).isSome = true ↔ relevantEvent ev = true := by
    unfold Cache.watchEvent
    by_cases hr : relevantEvent ev = true
    · simp [hr]
    · simp [hr]
  refine ⟨hsome.trans hrel, ?_⟩
  intro h
  have hr := hsome.mp h
  unfold Cache.watchEvent
  rw [if_pos hr]

/-! ## Reconciling the watches -/

theorem updateDir_untracked (add : String → Option String) (st : UpdateState) (k : String) :
    (updateDir add st ⟨k, false⟩).tracked = st.tracked.insert k (trackedAfterAdd add k) ∧
    (updateDir add st ⟨k, false⟩).dirErrors =
      (match add k with
        | none => st.dirErrors.erase k
        | some msg => st.dirErrors.insert k (Error.monitorFailed msg)) ∧
    (updateDir add st ⟨k, false⟩).update = (st.update || (add k).isNone) := by
  unfold updateDir trackedAfterAdd
  cases h : add k with
  | none => simp
  | some msg => simp

theorem updateDir_tracked (add : String → Option String) (st : UpdateState) (k : String) :
    updateDir add st ⟨k, true⟩ = st := by
  simp [updateDir]

theorem foldl_updateDir (add : String → Option String)
    (l : List (Sigma (fun _ : String => Bool))) (st : UpdateState) (d : String) :
    ((l.foldl (updateDir add) st).tracked.lookup d =
        if (⟨d, false⟩ : Sigma (fun _ : String => Bool)) ∈ l then some (trackedAfterAdd add d)
        else st.tracked.lookup d) ∧
    ((l.foldl (updateDir add) st).dirErrors.lookup d =
        if (⟨d, false⟩ : Sigma (fun _ : String => Bool)) ∈ l then errorAfterAdd add d
        else st.dirErrors.lookup d) := by
  induction l generalizing st with
  | nil => simp
  | cons e l ih =>
    obtain ⟨k, b⟩ := e
    rw [List.foldl_cons]
    obtain ⟨ih1, ih2⟩ := ih (updateDir add st ⟨k, b⟩)
    rw [ih1, ih2]
    cases b with
    | true =>
      rw [updateDir_tracked]
      have hmem : ((⟨d, false⟩ : Sigma (fun _ : String => Bool)) ∈
          (⟨k, true⟩ : Sigma (fun _ : String => Bool)) :: l) ↔
          (⟨d, false⟩ : Sigma (fun _ : String => Bool)) ∈ l := by
        simp
      simp only [hmem, and_self]
    | false =>
      obtain ⟨h1, h2, -⟩ := updateDir_untracked add st k
      rw [h1, h2]
      by_cases hl : (⟨d, false⟩ : Sigma (fun _ : String => Bool)) ∈ l
      · simp [hl]
      · by_cases hdk : d = k
        · subst hdk
          simp only [hl, if_false, List.mem_cons, true_or, if_true, AList.lookup_insert,
            true_and]
          unfold errorAfterAdd
          cases add d with
          | none => simp [AList.lookup_erase]
          | some msg => simp [AList.lookup_insert]
        · have hmem : ¬ (⟨d, false⟩ : Sigma (fun _ : String => Bool)) ∈
              (⟨k, false⟩ : Sigma (fun _ : String => Bool)) :: l := by
            simp [hl, hdk]
          simp only [hl, hmem, if_false, AList.lookup_insert_ne hdk, true_and]
          cases add k with
          | none => simp [AList.lookup_erase_ne hdk]
          | some msg => simp [AList.lookup_insert_ne hdk]

theorem foldl_updateDir_update (add : String → Option String)
    (l : List (Sigma (fun _ : String => Bool))) (st : UpdateState) :
    (l.foldl (updateDir add) st).update = true ↔
      st.update = true ∨
        ∃ d, (⟨d, false⟩ : Sigma (fun _ : String => Bool)) ∈ l ∧ add d = none := by
  induction l generalizing st with
  | nil => simp
  | cons e l ih =>
    obtain ⟨k, b⟩ := e
    rw [List.foldl_cons, ih]
    cases b with
    | true =>
      rw [updateDir_tracked]
      simp
    | false =>
      obtain ⟨-, -, h3⟩ := updateDir_untracked add st k
      rw [h3]
      simp only [Bool.or_eq_true, Option.isNone_iff_eq_none, List.mem_cons, Sigma.mk.inj_iff,
        heq_eq_eq, and_true]
      constructor
      · rintro ((h | h) | ⟨d, hd, hadd⟩)
        · exact Or.inl h
        · exact Or.inr ⟨k, Or.inl rfl, h⟩
        · exact Or.inr ⟨d, Or.inr hd, hadd⟩
      · rintro (h | ⟨d, hd | hd, hadd⟩)
        · exact Or.inl (Or.inl h)
        · exact Or.inl (Or.inr (hd ▸ hadd))
        · exact Or.inr ⟨d, hd, hadd⟩

theorem foldl_removeDir (removed : List String) (st : UpdateState) (d : String) :
    ((removed.foldl removeDir st).tracked.lookup d =
        if d ∈ removed then some false else st.tracked.lookup d) ∧
    ((removed.foldl removeDir st).dirErrors.lookup d =
        if d ∈ removed then some Error.directoryRemoved else st.dirErrors.lookup d) ∧
    ((removed.foldl removeDir st).update = true ↔ st.update = true ∨ removed ≠ []) := by
  induction removed generalizing st with
  | nil => simp
  | cons k ks ih =>
    rw [List.foldl_cons]
    obtain ⟨ih1, ih2, ih3⟩ := ih (removeDir st k)
    rw [ih1, ih2, ih3]
    refine ⟨?_, ?_, ?_⟩
    · by_cases hks : d ∈ ks
      · simp [hks]
      · by_cases hdk : d = k
        · subst hdk
          simp [hks, removeDir, AList.lookup_insert]
        · simp [hks, hdk, removeDir, AList.lookup_insert_ne hdk]
    · by_cases hks : d ∈ ks
      · simp [hks]
      · by_cases hdk : d = k
        · subst hdk
          simp [hks, removeDir, AList.lookup_insert]
        · simp [hks, hdk, removeDir, AList.lookup_insert_ne hdk]
    · simp [removeDir]

theorem mem_entries_iff_lookup (m : GoMap Bool) (d : String) (b : Bool) :
    (⟨d, b⟩ : Sigma (fun _ : String => Bool)) ∈ m.entries ↔ m.lookup d = some b := by
  rw [← AList.mem_lookup_iff]
  exact Option.mem_def

theorem update_lookup (add : String → Option String) (w : Watch) (dirErrors : GoMap Error)
    (removed : List String) (d : String) :
    ((w.update add dirErrors removed).tracked.lookup d =
        if d ∈ removed then some false
        else if w.tracked.lookup d = some false then some (trackedAfterAdd add d)
        else w.tracked.lookup d) ∧
    ((w.update add dirErrors removed).dirErrors.lookup d =
        if d ∈ removed then some Error.directoryRemoved
        else if w.tracked.lookup d = some false then errorAfterAdd add d
        else dirErrors.lookup d) := by
  unfold Watch.update
  obtain ⟨h1, h2, -⟩ := foldl_removeDir removed
    (w.tracked.entries.foldl (updateDir add)
      { tracked := w.tracked, dirErrors := dirErrors, update := false }) d
  obtain ⟨h3, h4⟩ := foldl_updateDir add w.tracked.entries
    { tracked := w.tracked, dirErrors := dirErrors, update := false } d
  rw [h1, h2, h3, h4]
  simp only [mem_entries_iff_lookup, and_self]

theorem update_flag (add : String → Option String) (w : Watch) (dirErrors : GoMap Error)
    (removed : List String) :
    (w.update add dirErrors removed).update = true ↔
      (∃ d, w.tracked.lookup d = some false ∧ add d = none) ∨ removed ≠ [] := by
  unfold Watch.update
  rw [(foldl_removeDir removed _ "").2.2, foldl_updateDir_update]
  simp only [Bool.false_eq_true, false_or, mem_entries_iff_lookup]

/-- The effects of `watch.update` for arbitrary arguments: the returned flag; every path
passed as removed is untracked with a removal error; every other directory whose
registration succeeded is tracked with its error cleared; every other directory whose
registration failed is untracked with the registration error recorded; and every other
path (already tracked, or unknown to the watch) is as before. -/
theorem update_effects (add : String → Option String) (w : Watch) (dirErrors : GoMap Error)
    (removed : List String) :
    ((w.update add dirErrors removed).update = true ↔
        (∃ d, w.tracked.lookup d = some false ∧ add d = none) ∨ removed ≠ []) ∧
      (∀ d, d ∈ removed →
        (w.update add dirErrors removed).tracked.lookup d = some false ∧
          (w.update add dirErrors removed).dirErrors.lookup d = some Error.directoryRemoved) ∧
      (∀ d, d ∉ removed → w.tracked.lookup d = some false → add d = none →
        (w.update add dirErrors removed).tracked.lookup d = some true ∧
          (w.update add dirErrors removed).dirErrors.lookup d = none) ∧
      (∀ d msg, d ∉ removed → w.tracked.lookup d = some false → add d = some msg →
        (w.update add dirErrors removed).tracked.lookup d = some false ∧
          (w.update add dirErrors removed).dirErrors.lookup d =
            some (Error.monitorFailed msg)) ∧
      (∀ d, d ∉ removed → w.tracked.lookup d ≠ some false →
        (w.update add dirErrors removed).tracked.lookup d = w.tracked.lookup d ∧
          (w.update add dirErrors removed).dirErrors.lookup d = dirErrors.lookup d) := by
  refine ⟨update_flag add w dirErrors removed, ?_, ?_, ?_, ?_⟩
  · intro d hd
    obtain ⟨h1, h2⟩ := update_lookup add w dirErrors removed d
    rw [h1, h2]
    simp [hd]
  · intro d hd hl hadd
    obtain ⟨h1, h2⟩ := update_lookup add w dirErrors removed d
    rw [h1, h2]
    simp [hd, hl, trackedAfterAdd, errorAfterAdd, hadd]
  · intro d msg hd hl hadd
    obtain ⟨h1, h2⟩ := update_lookup add w dirErrors removed d
    rw [h1, h2]
    simp [hd, hl, trackedAfterAdd, errorAfterAdd, hadd]
  · intro d hd hl
    obtain ⟨h1, h2⟩ := update_lookup add w dirErrors removed d
    rw [h1, h2]
    simp [hd, hl]

/-- C10: for every tracking state and every outcome of the watch registrations, with
removed paths that are tracked when the call is made (the watch loop passes a removed
path only after reading `w.tracked[event.Name]` as true), `watch.update` returns true if
and only if a directory that was not watched yet is registered successfully or a removed
path is passed; afterwards each directory whose registration succeeded is tracked with
its error cleared, each whose registration failed is untracked with the registration
error recorded, every path passed as removed is untracked with a removal error, and the
directories that were already tracked and are not removed are unchanged. -/
theorem C10_watch_update (add : String → Option String) (w : Watch) (dirErrors : GoMap Error)
    (removed : List String)
    (hremoved : ∀ d ∈ removed, w.tracked.lookup d = some true) :
    ((w.update add dirErrors removed).update = true ↔
        (∃ d, w.tracked.lookup d = some false ∧ add d = none) ∨ removed ≠ []) ∧
      (∀ d, w.tracked.lookup d = some false → add d = none →
        (w.update add dirErrors removed).tracked.lookup d = some true ∧
          (w.update add dirErrors removed).dirErrors.lookup d = none) ∧
      (∀ d msg, w.tracked.lookup d = some false → add d = some msg →
        (w.update add dirErrors removed).tracked.lookup d = some false ∧
          (w.update add dirErrors removed).dirErrors.lookup d =
            some (Error.monitorFailed msg)) ∧
      (∀ d, d ∈ removed →
        (w.update add dirErrors removed).tracked.lookup d = some false ∧
          (w.update add dirErrors removed).dirErrors.lookup d = some Error.directoryRemoved) ∧
      (∀ d, w.tracked.lookup d = some true → d ∉ removed →
        (w.update add dirErrors removed).tracked.lookup d = some true ∧
          (w.update add dirErrors removed).dirErrors.lookup d = dirErrors.lookup d) := by
  obtain ⟨hflag, hrem, hok, hfail, hother⟩ := update_effects add w dirErrors removed
  have hnot : ∀ d, w.tracked.lookup d = some false → d ∉ removed := by
    intro d hl hd
    rw [hremoved d hd] at hl
    cases hl
  refine ⟨hflag, ?_, ?_, hrem, ?_⟩
  · intro d hl hadd
    exact hok d (hnot d hl) hl hadd
  · intro d msg hl hadd
    exact hfail d msg (hnot d hl) hl hadd
  · intro d hl hd
    have h := hother d hd (by rw [hl]; simp)
    rw [hl] at h
    exact h

/-- C10 at a watch that watches `/etc/cdi` and not yet `/run/cdi`, in a call in which
`/run/cdi` can be registered and `/etc/cdi` is passed as removed. -/
theorem C10_watch_update_witness :
    (∀ d ∈ ["/etc/cdi"], exWatchMixed.tracked.lookup d = some true) ∧
      (exWatchMixed.update (fun _ => none) ∅ ["/etc/cdi"]).update = true ∧
      (exWatchMixed.update (fun _ => none) ∅ ["/etc/cdi"]).tracked.lookup "/run/cdi" =
        some true ∧
      (exWatchMixed.update (fun _ => none) ∅ ["/etc/cdi"]).dirErrors.lookup "/run/cdi" = none ∧
      (exWatchMixed.update (fun _ => none) ∅ ["/etc/cdi"]).tracked.lookup "/etc/cdi" =
        some false ∧
      (exWatchMixed.update (fun _ => none) ∅ ["/etc/cdi"]).dirErrors.lookup "/etc/cdi" =
        some Error.directoryRemoved := by
  have hremoved : ∀ d ∈ ["/etc/cdi"], exWatchMixed.tracked.lookup d = some true := by decide
  obtain ⟨hflag, hok, -, hrem, -⟩ :=
    C10_watch_update (fun _ => none) exWatchMixed ∅ ["/etc/cdi"] hremoved
  have h1 := hok "/run/cdi" (by decide) rfl
  have h2 := hrem "/etc/cdi" (by decide)
  exact ⟨hremoved, hflag.mpr (Or.inr (by decide)), h1.1, h1.2, h2.1, h2.2⟩

/-! ## Listings -/

theorem mem_sortStrings (l : List String) (n : String) : n ∈ sortStrings l ↔ n ∈ l :=
  (List.perm_insertionSort _ l).mem_iff

theorem sortStrings_sorted (l : List String) (h : l.Nodup) :
    (sortStrings l).Sorted (fun a b => a < b) := by
  have hs : (sortStrings l).Sorted (fun a b => a ≤ b) := List.sorted_insertionSort _ l
  exact hs.lt_of_le ((List.perm_insertionSort _ l).nodup_iff.mpr h)

theorem sortStrings_perm (l1 l2 : List String) (h : l1.Perm l2) :
    sortStrings l1 = sortStrings l2 := by
  have h1 : (sortStrings l1).Sorted (fun a b => a ≤ b) := List.sorted_insertionSort _ l1
  have h2 : (sortStrings l2).Sorted (fun a b => a ≤ b) := List.sorted_insertionSort _ l2
  have hp : (sortStrings l1).Perm (sortStrings l2) :=
    ((List.perm_insertionSort _ l1).trans h).trans (List.perm_insertionSort _ l2).symm
  exact List.eq_of_perm_of_sorted hp h1 h2

theorem keyedByName_insert (m : GoMap Device) (de : DeviceEntry) (spec : Spec)
    (h : KeyedByName m) : KeyedByName (m.insert de.qualifiedName ⟨de, spec⟩) := by
  intro k d hk
  by_cases hkd : k = de.qualifiedName
  · subst hkd
    rw [AList.lookup_insert] at hk
    cases hk
    rfl
  · rw [AList.lookup_insert_ne hkd] at hk
    exact h k d hk

theorem addDevice_specs (spec : Spec) (st : RefreshState) (de : DeviceEntry) :
    (addDevice spec st de).specs = st.specs := by
  rcases addDevice_cases spec st de with h | ⟨other, -, -, h⟩ | h
  · rw [h]
  · rw [h]
    exact collectError_specs st _ _
  · rw [h]

theorem keyedByName_addDevice (spec : Spec) (st : RefreshState) (de : DeviceEntry)
    (h : KeyedByName st.devices) : KeyedByName (addDevice spec st de).devices := by
  rcases addDevice_cases spec st de with h1 | ⟨other, -, -, h1⟩ | h1
  · rw [h1]
    exact keyedByName_insert _ de spec h
  · rw [h1]
    show KeyedByName (collectError st _ _).devices
    rw [collectError_devices]
    exact h
  · rw [h1]
    exact h

theorem foldl_addDevice_keyed (spec : Spec) (des : List DeviceEntry) (st : RefreshState)
    (h : KeyedByName st.devices) :
    KeyedByName (des.foldl (addDevice spec) st).devices ∧
      (des.foldl (addDevice spec) st).specs = st.specs := by
  induction des generalizing st with
  | nil => exact ⟨h, rfl⟩
  | cons de des ih =>
    rw [List.foldl_cons]
    obtain ⟨h1, h2⟩ := ih _ (keyedByName_addDevice spec st de h)
    exact ⟨h1, h2.trans (addDevice_specs spec st de)⟩

theorem keyedByVendor_recordSpec (st : RefreshState) (spec : Spec)
    (h : KeyedByVendor st.specs) : KeyedByVendor (recordSpec st spec).specs := by
  intro v l hl
  simp only [recordSpec] at hl
  by_cases hv : v = spec.GetVendor
  · subst hv
    rw [AList.lookup_insert] at hl
    cases hl
    refine ⟨by simp, ?_⟩
    intro s hs
    rcases List.mem_append.mp hs with hs1 | hs1
    · unfold getSlice at hs1
      cases hold : st.specs.lookup spec.GetVendor with
      | none => simp [hold] at hs1
      | some old =>
        simp only [hold, Option.getD_some] at hs1
        exact (h _ old hold).2 s hs1
    · rw [List.mem_singleton] at hs1
      rw [hs1]
  · rw [AList.lookup_insert_ne hv] at hl
    exact h v l hl

theorem scanCallback_keyed (clean : String → String) (st : RefreshState) (e : ScanEntry)
    (h : KeyedByName st.devices ∧ KeyedByVendor st.specs) :
    KeyedByName (scanCallback clean st e).devices ∧
      KeyedByVendor (scanCallback clean st e).specs := by
  cases e with
  | failed path prio err =>
    simp only [scanCallback, collectError_devices, collectError_specs]
    exact h
  | loaded path prio spec =>
    simp only [scanCallback]
    obtain ⟨h1, h2⟩ := foldl_addDevice_keyed spec spec.devices (recordSpec st spec) h.1
    exact ⟨h1, h2 ▸ keyedByVendor_recordSpec st spec h.2⟩

theorem foldl_scanCallback_keyed (clean : String → String) (scan : List ScanEntry)
    (st : RefreshState) (h : KeyedByName st.devices ∧ KeyedByVendor st.specs) :
    KeyedByName (scan.foldl (scanCallback clean) st).devices ∧
      KeyedByVendor (scan.foldl (scanCallback clean) st).specs := by
  induction scan generalizing st with
  | nil => exact h
  | cons e scan ih => exact ih _ (scanCallback_keyed clean st e h)

theorem scanAll_keyed (env : Env) :
    KeyedByName (scanAll env).devices ∧ KeyedByVendor (scanAll env).specs := by
  apply foldl_scanCallback_keyed
  constructor
  · intro k d hk
    simp [RefreshState.init] at hk
  · intro v l hl
    simp [RefreshState.init] at hl

theorem freshDevices_keyed (env : Env) : KeyedByName (freshDevices env) := by
  intro k d hk
  rw [freshDevices, lookup_dropConflicts] at hk
  by_cases hmem : k ∈ (scanAll env).conflicts.keys
  · simp [hmem] at hk
  · simp only [hmem, if_false] at hk
    exact (scanAll_keyed env).1 k d hk

theorem refreshIfRequired_keyed (env0 env : Env) (c0 : Cache) :
    KeyedByName ((c0.refresh env0).1.refreshIfRequired env false).1.devices ∧
      KeyedByVendor ((c0.refresh env0).1.refreshIfRequired env false).1.specs := by
  rcases refreshIfRequired_registry env (c0.refresh env0).1 false with h | h
  · rw [h.1, h.2.1, refresh_devices, refresh_specs]
    exact ⟨freshDevices_keyed env0, (scanAll_keyed env0).2⟩
  · rw [h.1, h.2.1]
    exact ⟨freshDevices_keyed env, (scanAll_keyed env).2⟩

theorem mem_keys_iff_lookup {V : Type} (m : GoMap V) (k : String) :
    k ∈ m.keys ↔ ∃ v, m.lookup k = some v := by
  rw [← AList.mem_keys, ← AList.lookup_isSome, Option.isSome_iff_exists]

theorem mem_cachedSpecs (c : Cache) (s : Spec) :
    s ∈ c.cachedSpecs ↔ ∃ v l, c.specs.lookup v = some l ∧ s ∈ l := by
  unfold Cache.cachedSpecs
  rw [List.mem_flatMap]
  constructor
  · rintro ⟨⟨v, l⟩, he, hs⟩
    exact ⟨v, l, Option.mem_def.mp (AList.mem_lookup_iff.mpr he), hs⟩
  · rintro ⟨v, l, hl, hs⟩
    exact ⟨⟨v, l⟩, AList.mem_lookup_iff.mp (Option.mem_def.mpr hl), hs⟩

theorem mem_foldl_insert_class (l : List Spec) (m : GoMap Unit) (k : String) :
    k ∈ (l.foldl (fun m spec => m.insert spec.GetClass ()) m).keys ↔
      k ∈ m.keys ∨ ∃ s ∈ l, s.GetClass = k := by
  induction l generalizing m with
  | nil => simp
  | cons s l ih =>
    rw [List.foldl_cons, ih, ← AList.mem_keys, AList.mem_insert, AList.mem_keys]
    simp only [List.mem_cons, exists_eq_or_imp]
    constructor
    · rintro ((h | h) | h)
      · exact Or.inr (Or.inl h.symm)
      · exact Or.inl h
      · exact Or.inr (Or.inr h)
    · rintro (h | h | h)
      · exact Or.inl (Or.inr h)
      · exact Or.inl (Or.inl h.symm)
      · exact Or.inr h

theorem mem_foldl_classes (es : List (Sigma (fun _ : String => List Spec))) (m : GoMap Unit)
    (k : String) :
    k ∈ (es.foldl (fun cmap e => e.2.foldl (fun m spec => m.insert spec.GetClass ()) cmap)
        m).keys ↔
      k ∈ m.keys ∨ ∃ s ∈ es.flatMap (fun e => e.2), s.GetClass = k := by
  induction es generalizing m with
  | nil => simp
  | cons e es ih =>
    rw [List.foldl_cons, ih, mem_foldl_insert_class]
    simp only [List.flatMap_cons, List.mem_append]
    constructor
    · rintro ((h | ⟨s, hs, hk⟩) | ⟨s, hs, hk⟩)
      · exact Or.inl h
      · exact Or.inr ⟨s, Or.inl hs, hk⟩
      · exact Or.inr ⟨s, Or.inr hs, hk⟩
    · rintro (h | ⟨s, hs | hs, hk⟩)
      · exact Or.inl (Or.inl h)
      · exact Or.inl (Or.inr ⟨s, hs, hk⟩)
      · exact Or.inr ⟨s, hs, hk⟩

theorem mem_classSet (specs : GoMap (List Spec)) (k : String) :
    k ∈ (classSet specs).keys ↔ ∃ s ∈ specs.entries.flatMap (fun e => e.2), s.GetClass = k := by
  unfold classSet
  rw [mem_foldl_classes]
  simp

/-- C7: in every state of the registry that a refresh has built, `ListDevices`,
`ListVendors` and `ListClasses` return lists in strictly ascending order (so without
duplicates) whose elements are exactly the qualified names of the registered devices,
the vendors of the cached descriptors and the classes of the cached descriptors; the
returned list does not depend on the order in which the map yields its keys. -/
theorem C7_listings_sorted (env0 env : Env) (c0 : Cache) :
    (((c0.refresh env0).1.ListDevices env).2.Sorted (fun a b => a < b) ∧
      ∀ n, n ∈ ((c0.refresh env0).1.ListDevices env).2 ↔
        ∃ d, ((c0.refresh env0).1.ListDevices env).1.devices.lookup n = some d ∧
          d.GetQualifiedName = n) ∧
    (((c0.refresh env0).1.ListVendors env).2.Sorted (fun a b => a < b) ∧
      ∀ v, v ∈ ((c0.refresh env0).1.ListVendors env).2 ↔
        ∃ s ∈ ((c0.refresh env0).1.ListVendors env).1.cachedSpecs, s.GetVendor = v) ∧
    (((c0.refresh env0).1.ListClasses env).2.Sorted (fun a b => a < b) ∧
      ∀ k, k ∈ ((c0.refresh env0).1.ListClasses env).2 ↔
        ∃ s ∈ ((c0.refresh env0).1.ListClasses env).1.cachedSpecs, s.GetClass = k) ∧
    (∀ keys1 keys2 : List String, keys1.Perm keys2 → sortStrings keys1 = sortStrings keys2) := by
  obtain ⟨hname, hvendor⟩ := refreshIfRequired_keyed env0 env c0
  refine ⟨⟨sortStrings_sorted _ (AList.keys_nodup _), ?_⟩,
    ⟨sortStrings_sorted _ (AList.keys_nodup _), ?_⟩,
    ⟨sortStrings_sorted _ (AList.keys_nodup _), ?_⟩, sortStrings_perm⟩
  · intro n
    simp only [Cache.ListDevices]
    rw [mem_sortStrings, mem_keys_iff_lookup]
    constructor
    · rintro ⟨d, hd⟩
      exact ⟨d, hd, hname n d hd⟩
    · rintro ⟨d, hd, -⟩
      exact ⟨d, hd⟩
  · intro v
    simp only [Cache.ListVendors]
    rw [mem_sortStrings, mem_keys_iff_lookup]
    constructor
    · rintro ⟨l, hl⟩
      obtain ⟨hne, hall⟩ := hvendor v l hl
      obtain ⟨s, hs⟩ := List.exists_mem_of_ne_nil l hne
      exact ⟨s, (mem_cachedSpecs _ s).mpr ⟨v, l, hl, hs⟩, hall s hs⟩
    · rintro ⟨s, hs, hv⟩
      obtain ⟨v2, l, hl, hsl⟩ := (mem_cachedSpecs _ s).mp hs
      have := (hvendor v2 l hl).2 s hsl
      rw [hv] at this
      exact ⟨l, this ▸ hl⟩
  · intro k
    simp only [Cache.ListClasses]
    rw [mem_sortStrings, mem_classSet]
    rfl

/-! ## Conflicts, idempotence and absent targets -/

theorem marked_of_equal_priority (env : Env) (n : String)
    (pre mid post : List ScanEntry) (p1 p2 : String) (q1 q2 : Int) (s1 s2 : Spec)
    (hscan : env.scan =
      pre ++ ScanEntry.loaded p1 q1 s1 :: mid ++ ScanEntry.loaded p2 q2 s2 :: post)
    (hasc : Ascending env.scan)
    (hprio : s1.priority = s2.priority)
    (h1 : n ∈ s1.devices.map DeviceEntry.qualifiedName)
    (h2 : n ∈ s2.devices.map DeviceEntry.qualifiedName) :
    (view n (scanAll env)).2 = true := by
  rw [view_scanAll]
  have hpw := definitions_pairwise n env.scan hasc
  obtain ⟨d1, hd1, hs1⟩ := exists_specDefinition h1
  obtain ⟨d2, hd2, hs2⟩ := exists_specDefinition h2
  obtain ⟨X1, X2, hX⟩ := List.append_of_mem hd1
  obtain ⟨Y1, Y2, hY⟩ := List.append_of_mem hd2
  have hdefs : definitions n env.scan =
      (definitions n pre ++ X1) ++ d1 :: (X2 ++ definitions n mid ++ Y1) ++ d2 ::
        (Y2 ++ definitions n post) := by
    rw [hscan, definitions_append, definitions_append, definitions_loaded, definitions_loaded,
      hX, hY]
    simp [List.append_assoc]
  rw [hdefs] at hpw ⊢
  exact foldl_viewStep_equal_marks _ _ _ d1 d2 hpw (by rw [hs1, hs2, hprio])

theorem recorded_at_least (env : Env) (n : String) (pre post : List ScanEntry) (p : String)
    (q : Int) (s : Spec) (hscan : env.scan = pre ++ ScanEntry.loaded p q s :: post)
    (h : n ∈ s.devices.map DeviceEntry.qualifiedName) :
    ∃ d, (scanAll env).devices.lookup n = some d ∧ s.priority ≤ d.spec.priority := by
  obtain ⟨d3, hd3, hs3⟩ := exists_specDefinition h
  have hmem : d3 ∈ definitions n env.scan := by
    rw [hscan, definitions_append, definitions_loaded]
    simp [hd3]
  obtain ⟨r, hr, -, hall, -⟩ :=
    foldl_viewStep_cur (definitions n env.scan) (none, false)
      (Or.inl (List.ne_nil_of_mem hmem))
  refine ⟨r, ?_, hs3 ▸ hall d3 hmem⟩
  have hv := view_scanAll n env
  rw [← hv] at hr
  exact hr

/-- C16: in an ascending scan in which two descriptors of equal priority declare the
qualified name `n` and a descriptor of strictly higher priority, scanned later, declares
`n` as well, the scan does record a device of at least that higher priority for `n`, yet
after `refresh` the registry has no entry for `n` and `GetDevice n` finds nothing: the
name stays excluded. -/
theorem C16_conflict_outlives_higher_priority (env : Env) (c : Cache) (n : String)
    (pre mid post1 post2 : List ScanEntry) (p1 p2 p3 : String) (q1 q2 q3 : Int)
    (s1 s2 s3 : Spec)
    (hscan : env.scan =
      pre ++ ScanEntry.loaded p1 q1 s1 :: mid ++ ScanEntry.loaded p2 q2 s2 ::
        post1 ++ ScanEntry.loaded p3 q3 s3 :: post2)
    (hasc : Ascending env.scan)
    (hprio : s1.priority = s2.priority)
    (_hhigher : s2.priority < s3.priority)
    (h1 : n ∈ s1.devices.map DeviceEntry.qualifiedName)
    (h2 : n ∈ s2.devices.map DeviceEntry.qualifiedName)
    (h3 : n ∈ s3.devices.map DeviceEntry.qualifiedName) :
    (∃ d, (scanAll env).devices.lookup n = some d ∧ s3.priority ≤ d.spec.priority) ∧
      (c.refresh env).1.devices.lookup n = none ∧
      (Cache.GetDevice env (c.refresh env).1 n).2 = none := by
  have hscan2 : env.scan =
      pre ++ ScanEntry.loaded p1 q1 s1 :: mid ++ ScanEntry.loaded p2 q2 s2 ::
        (post1 ++ ScanEntry.loaded p3 q3 s3 :: post2) := by
    rw [hscan]
    simp [List.append_assoc]
  have hscan3 : env.scan =
      (pre ++ ScanEntry.loaded p1 q1 s1 :: mid ++ ScanEntry.loaded p2 q2 s2 :: post1) ++
        ScanEntry.loaded p3 q3 s3 :: post2 := hscan
  have hmarked := marked_of_equal_priority env n pre mid _ p1 p2 q1 q2 s1 s2 hscan2 hasc hprio h1 h2
  have hlook : (freshDevices env).lookup n = none := by
    rw [lookup_freshDevices, hmarked]
    rfl
  exact ⟨recorded_at_least env n _ post2 p3 q3 s3 hscan3 h3,
    by rw [refresh_devices]; exact hlook, by rw [getDevice_after_refresh]; exact hlook⟩

/-- C16 at a scan of two priority-1 descriptors and a later priority-2 descriptor, all
declaring `acme/gpu=dev0`. -/
theorem C16_conflict_outlives_higher_priority_witness :
    (∃ d, (scanAll exEnvLateOverride).devices.lookup "acme/gpu=dev0" = some d ∧
        exSpecTop.priority ≤ d.spec.priority) ∧
      (exCache.refresh exEnvLateOverride).1.devices.lookup "acme/gpu=dev0" = none ∧
      (Cache.GetDevice exEnvLateOverride (exCache.refresh exEnvLateOverride).1
        "acme/gpu=dev0").2 = none :=
  C16_conflict_outlives_higher_priority exEnvLateOverride exCache "acme/gpu=dev0"
    [] [] [] [] "/run/cdi/a.json" "/run/cdi/b.json" "/var/cdi/top.json" 1 1 2
    exSpecA exSpecB exSpecTop rfl
    (by simp [Ascending, loadedSpecs, exEnvLateOverride, exSpecA, exSpecB, exSpecTop])
    rfl (by decide) (by decide) (by decide) (by decide)

/-- C12: `refresh` is idempotent and ignores the registry it replaces: over a fixed scan,
a second `refresh` yields the same devices map, the same descriptors map, the same
per-path error map and the same aggregate as the first, and two caches in any prior
states get the same maps and the same aggregate. -/
theorem C12_refresh_idempotent (env : Env) (c c2 : Cache) :
    (((c.refresh env).1.refresh env).1.devices = (c.refresh env).1.devices ∧
      ((c.refresh env).1.refresh env).1.specs = (c.refresh env).1.specs ∧
      ((c.refresh env).1.refresh env).1.errors = (c.refresh env).1.errors ∧
      ((c.refresh env).1.refresh env).2 = (c.refresh env).2) ∧
    ((c.refresh env).1.devices = (c2.refresh env).1.devices ∧
      (c.refresh env).1.specs = (c2.refresh env).1.specs ∧
      (c.refresh env).1.errors = (c2.refresh env).1.errors ∧
      (c.refresh env).2 = (c2.refresh env).2) :=
  ⟨⟨rfl, rfl, rfl, rfl⟩, ⟨rfl, rfl, rfl, rfl⟩⟩

/-- C14: called without a target specification, `InjectDevices` returns the nil-target
error and the whole requested list as unresolved, and the cache is the one it was
called on: nothing is refreshed, no watch is reconciled. -/
theorem C14_nil_target (env : Env) (c : Cache) (devices : List String) :
    (c.InjectDevices env none devices).err = some Error.nilOCISpec ∧
      (c.InjectDevices env none devices).unresolved = devices ∧
      (c.InjectDevices env none devices).ociSpec = none ∧
      (c.InjectDevices env none devices).cache = c :=
  ⟨rfl, rfl, rfl, rfl⟩

/-! ## Messages and cached errors -/

/-- C19, the code at a failing input: with `acme/gpu=a` registered and
`acme/gpu=missing` not, the unresolved list is `acme/gpu=missing` alone, but the error
text after "unresolvable CDI devices" lists both requested names, the resolved one
included. -/
theorem C19_message_lists_all_requested :
    (exCacheInject.InjectDevices exEnvInject (some exOCISpec)
        ["acme/gpu=a", "acme/gpu=missing"]).unresolved = ["acme/gpu=missing"] ∧
      (exCacheInject.InjectDevices exEnvInject (some exOCISpec)
        ["acme/gpu=a", "acme/gpu=missing"]).err =
        some (Error.unresolvable "acme/gpu=a, acme/gpu=missing") := by
  decide

/-- C17, the code at a failing input: after a scan with one equal-priority conflict,
`refresh` returns the conflict error once, while `Refresh`, in auto-refresh mode without
a topology change (so without a rescan), returns it twice, once per path it is
recorded under. -/
theorem C17_cached_errors_repeat_conflicts :
    (exCacheAuto.refresh exEnvConflict).2 =
        some [Error.conflict "acme/gpu=dev0" "/run/cdi/b.json" "/run/cdi/a.json"] ∧
      ((exCacheAuto.refresh exEnvConflict).1.refreshIfRequired exEnvConflict false).2.1 = false ∧
      ((exCacheAuto.refresh exEnvConflict).1.Refresh exEnvConflict).2 =
        some [Error.conflict "acme/gpu=dev0" "/run/cdi/b.json" "/run/cdi/a.json",
              Error.conflict "acme/gpu=dev0" "/run/cdi/b.json" "/run/cdi/a.json"] := by
  decide

/-! ## Refresh: when it rescans and what it returns -/

theorem sameErrors_of_fields (st st2 : RefreshState) (h1 : st2.specErrors = st.specErrors)
    (h2 : st2.result = st.result) (h : SameErrors st) : SameErrors st2 := by
  unfold SameErrors at h ⊢
  rw [h1, h2]
  exact h

theorem noEmptyList_foldl_recordAt (err : Error) (paths : List String) (s : RefreshState)
    (h : NoEmptyList s.specErrors) : NoEmptyList (paths.foldl (recordAt err) s).specErrors := by
  induction paths generalizing s with
  | nil => exact h
  | cons q ps ih =>
    rw [List.foldl_cons]
    apply ih
    intro p l hl
    simp only [recordAt] at hl
    by_cases hpq : p = q
    · subst hpq
      rw [AList.lookup_insert] at hl
      cases hl
      simp
    · rw [AList.lookup_insert_ne hpq] at hl
      exact h p l hl

theorem sameErrors_collectError (st : RefreshState) (err : Error) (path : String)
    (rest : List String) (h : SameErrors st) :
    SameErrors (collectError st err (path :: rest)) := by
  obtain ⟨h1, h2, h3⟩ := h
  refine ⟨?_, ?_, ?_⟩
  · exact noEmptyList_foldl_recordAt err (path :: rest) _ h1
  · intro e he
    rw [collectError_result] at he
    rcases List.mem_append.mp he with he1 | he1
    · obtain ⟨p, hp⟩ := h2 e he1
      exact ⟨p, (mem_getSlice_collectError st err e _ p).mpr (Or.inl hp)⟩
    · rw [List.mem_singleton] at he1
      exact ⟨path, (mem_getSlice_collectError st err e _ path).mpr
        (Or.inr ⟨he1, List.mem_cons_self _ _⟩)⟩
  · intro p e he
    rw [collectError_result]
    rcases (mem_getSlice_collectError st err e _ p).mp he with he1 | ⟨he1, -⟩
    · exact List.mem_append_left _ (h3 p e he1)
    · exact List.mem_append_right _ (by simp [he1])

theorem sameErrors_addDevice (spec : Spec) (st : RefreshState) (de : DeviceEntry)
    (h : SameErrors st) : SameErrors (addDevice spec st de) := by
  rcases addDevice_cases spec st de with h1 | ⟨other, -, -, h1⟩ | h1
  · rw [h1]
    exact sameErrors_of_fields st _ rfl rfl h
  · rw [h1]
    exact sameErrors_of_fields _ _ rfl rfl
      (sameErrors_collectError st _ spec.path [other.spec.path] h)
  · rw [h1]
    exact h

theorem sameErrors_foldl_addDevice (spec : Spec) (des : List DeviceEntry) (st : RefreshState)
    (h : SameErrors st) : SameErrors (des.foldl (addDevice spec) st) := by
  induction des generalizing st with
  | nil => exact h
  | cons de des ih => exact ih _ (sameErrors_addDevice spec st de h)

theorem sameErrors_scanCallback (clean : String → String) (st : RefreshState) (e : ScanEntry)
    (h : SameErrors st) : SameErrors (scanCallback clean st e) := by
  cases e with
  | failed path prio err => exact sameErrors_collectError st _ (clean path) [] h
  | loaded path prio spec =>
    exact sameErrors_foldl_addDevice spec spec.devices _
      (sameErrors_of_fields st (recordSpec st spec) rfl rfl h)

theorem sameErrors_foldl_scanCallback (clean : String → String) (scan : List ScanEntry)
    (st : RefreshState) (h : SameErrors st) :
    SameErrors (scan.foldl (scanCallback clean) st) := by
  induction scan generalizing st with
  | nil => exact h
  | cons e scan ih => exact ih _ (sameErrors_scanCallback clean st e h)

theorem sameErrors_scanAll (env : Env) : SameErrors (scanAll env) := by
  apply sameErrors_foldl_scanCallback
  refine ⟨?_, ?_, ?_⟩
  · intro p l hl
    simp [RefreshState.init] at hl
  · intro e he
    simp [RefreshState.init] at he
  · intro p e he
    simp [RefreshState.init, getSlice] at he

theorem result_eq_nil_iff (env : Env) :
    (scanAll env).result = [] ↔ ∀ p, getSlice (scanAll env).specErrors p = [] := by
  obtain ⟨-, h2, h3⟩ := sameErrors_scanAll env
  constructor
  · intro h p
    apply List.eq_nil_iff_forall_not_mem.mpr
    intro e he
    have := h3 p e he
    rw [h] at this
    cases this
  · intro h
    apply List.eq_nil_iff_forall_not_mem.mpr
    intro e he
    obtain ⟨p, hp⟩ := h2 e he
    rw [h p] at hp
    cases hp

theorem foldl_append_some (es : List (Sigma (fun _ : String => List Error))) (l : List Error) :
    ∃ l2, es.foldl (fun result e => some (Option.getD result [] ++ e.2)) (some l) = some l2 := by
  induction es generalizing l with
  | nil => exact ⟨l, rfl⟩
  | cons e es ih => exact ih _

theorem cachedErrors_eq_none (m : GoMap (List Error)) :
    cachedErrors m = none ↔ m.entries = [] := by
  unfold cachedErrors
  cases hm : m.entries with
  | nil => simp
  | cons e es =>
    obtain ⟨l2, hl2⟩ := foldl_append_some es (Option.getD none [] ++ e.2)
    simp only [List.foldl_cons, hl2]
    simp

theorem cachedErrors_eq_none_iff (m : GoMap (List Error)) (h : NoEmptyList m) :
    cachedErrors m = none ↔ ∀ p, getSlice m p = [] := by
  rw [cachedErrors_eq_none]
  constructor
  · intro he p
    have hl : m.lookup p = none := by
      rw [AList.lookup_eq_none, AList.mem_keys, AList.keys, he]
      simp
    simp [getSlice, hl]
  · intro hall
    apply List.eq_nil_iff_forall_not_mem.mpr
    rintro ⟨p, l⟩ hmem
    have hl : m.lookup p = some l := Option.mem_def.mp (AList.mem_lookup_iff.mpr hmem)
    have hne := h p l hl
    have hp := hall p
    simp only [getSlice, hl, Option.getD_some] at hp
    exact hne hp

theorem refresh_returns_nil_iff (env : Env) (c : Cache) :
    (c.refresh env).2 = none ↔ ∀ p, getSlice (c.refresh env).1.errors p = [] := by
  rw [refresh_errors, ← result_eq_nil_iff]
  unfold Cache.refresh
  simp only
  constructor
  · intro h
    by_contra hne
    rw [if_pos (List.length_pos.mpr hne)] at h
    cases h
  · intro h
    rw [h]
    rfl

theorem refresh_manual (env : Env) (c : Cache) (ha : c.autoRefresh = false) :
    (c.refreshIfRequired env (!c.autoRefresh)).2.1 = true ∧ c.Refresh env = c.refresh env := by
  unfold Cache.Refresh Cache.refreshIfRequired
  simp [ha]

theorem refresh_auto_changed (env : Env) (c : Cache) (ha : c.autoRefresh = true)
    (hu : (c.watch.update env.watchAdd c.dirErrors []).update = true) :
    (c.refreshIfRequired env (!c.autoRefresh)).2.1 = true ∧
      c.Refresh env =
        Cache.refresh env
          { c with
            watch := { tracked := (c.watch.update env.watchAdd c.dirErrors []).tracked }
            dirErrors := (c.watch.update env.watchAdd c.dirErrors []).dirErrors } := by
  unfold Cache.Refresh Cache.refreshIfRequired
  simp [ha, hu]

theorem refresh_auto_unchanged (env : Env) (c : Cache) (ha : c.autoRefresh = true)
    (hu : (c.watch.update env.watchAdd c.dirErrors []).update = false) :
    (c.refreshIfRequired env (!c.autoRefresh)).2.1 = false ∧
      c.Refresh env =
        ({ c with
            watch := { tracked := (c.watch.update env.watchAdd c.dirErrors []).tracked }
            dirErrors := (c.watch.update env.watchAdd c.dirErrors []).dirErrors },
          cachedErrors c.errors) := by
  unfold Cache.Refresh Cache.refreshIfRequired
  simp [ha, hu]

theorem refresh_policy_of (env : Env) (c : Cache) (hne : NoEmptyList c.errors) :
    ((c.refreshIfRequired env (!c.autoRefresh)).2.1 = true ↔
        (c.autoRefresh = false ∨
          (c.autoRefresh = true ∧
            (c.watch.update env.watchAdd c.dirErrors []).update = true))) ∧
      ((c.refreshIfRequired env (!c.autoRefresh)).2.1 = true →
        (c.Refresh env).1.devices = freshDevices env ∧
          (c.Refresh env).1.specs = (scanAll env).specs ∧
          (c.Refresh env).1.errors = (scanAll env).specErrors) ∧
      ((c.refreshIfRequired env (!c.autoRefresh)).2.1 = false →
        (c.Refresh env).1.devices = c.devices ∧
          (c.Refresh env).1.specs = c.specs ∧
          (c.Refresh env).1.errors = c.errors) ∧
      ((c.Refresh env).2 = none ↔ ∀ p, getSlice (c.Refresh env).1.errors p = []) := by
  rcases Bool.eq_false_or_eq_true c.autoRefresh with ha | ha
  · rcases Bool.eq_false_or_eq_true (c.watch.update env.watchAdd c.dirErrors []).update
      with hu | hu
    · obtain ⟨hF, hR⟩ := refresh_auto_changed env c ha hu
      rw [hF, hR]
      exact ⟨⟨fun _ => Or.inr ⟨ha, hu⟩, fun _ => rfl⟩, fun _ => ⟨rfl, rfl, rfl⟩,
        (fun h => by cases h), refresh_returns_nil_iff env _⟩
    · obtain ⟨hF, hR⟩ := refresh_auto_unchanged env c ha hu
      rw [hF, hR]
      refine ⟨⟨(fun h => by cases h), ?_⟩, (fun h => by cases h), fun _ => ⟨rfl, rfl, rfl⟩,
        cachedErrors_eq_none_iff c.errors hne⟩
      rintro (h | ⟨-, h⟩)
      · rw [ha] at h
        cases h
      · rw [hu] at h
        cases h
  · obtain ⟨hF, hR⟩ := refresh_manual env c ha
    rw [hF, hR]
    exact ⟨⟨fun _ => Or.inl ha, fun _ => rfl⟩, fun _ => ⟨rfl, rfl, rfl⟩,
      (fun h => by cases h), refresh_returns_nil_iff env c⟩

/-- C13: on a cache whose registry a refresh has built, `Refresh` rescans if and only if
the cache is in manual mode, or it is in auto-refresh mode and `watch.update` reports a
change; when it rescans the registry is the one of the new scan, otherwise the registry
is untouched; and in both cases it returns `nil` if and only if no error is recorded
under any path in the registry after the call. -/
theorem C13_refresh_policy (env0 env : Env) (c0 : Cache) :
    (((c0.refresh env0).1.refreshIfRequired env (!(c0.refresh env0).1.autoRefresh)).2.1 = true ↔
        (c0.autoRefresh = false ∨
          (c0.autoRefresh = true ∧
            (c0.watch.update env.watchAdd c0.dirErrors []).update = true))) ∧
      (((c0.refresh env0).1.refreshIfRequired env (!(c0.refresh env0).1.autoRefresh)).2.1 = true →
        ((c0.refresh env0).1.Refresh env).1.devices = freshDevices env ∧
          ((c0.refresh env0).1.Refresh env).1.specs = (scanAll env).specs ∧
          ((c0.refresh env0).1.Refresh env).1.errors = (scanAll env).specErrors) ∧
      (((c0.refresh env0).1.refreshIfRequired env (!(c0.refresh env0).1.autoRefresh)).2.1 = false →
        ((c0.refresh env0).1.Refresh env).1.devices = (c0.refresh env0).1.devices ∧
          ((c0.refresh env0).1.Refresh env).1.specs = (c0.refresh env0).1.specs ∧
          ((c0.refresh env0).1.Refresh env).1.errors = (c0.refresh env0).1.errors) ∧
      (((c0.refresh env0).1.Refresh env).2 = none ↔
        ∀ p, getSlice ((c0.refresh env0).1.Refresh env).1.errors p = []) :=
  refresh_policy_of env (c0.refresh env0).1 (sameErrors_scanAll env0).1

/-! ## The watch after setup and updates -/

theorem lookup_foldl_insert_false (dirs : List String) (m : GoMap Bool) (d : String) :
    (dirs.foldl (fun m dir => m.insert dir false) m).lookup d =
      if d ∈ dirs then some false else m.lookup d := by
  induction dirs generalizing m with
  | nil => simp
  | cons k ks ih =>
    rw [List.foldl_cons, ih]
    by_cases hks : d ∈ ks
    · simp [hks]
    · by_cases hdk : d = k
      · subst hdk
        simp [hks, AList.lookup_insert]
      · simp [hks, hdk, AList.lookup_insert_ne hdk]

theorem lookup_untrackedAll (dirs : List String) (d : String) :
    (untrackedAll dirs).lookup d = if d ∈ dirs then some false else none := by
  unfold untrackedAll
  rw [lookup_foldl_insert_false]
  simp

theorem trackedIffNoError_setup (add : String → Option String) (dirs : List String) :
    TrackedIffNoError (Watch.setup none add dirs ∅) ∧
      ∀ d ∈ dirs, ∃ b, (Watch.setup none add dirs ∅).1.tracked.lookup d = some b := by
  have hlook : ∀ d, (Watch.setup none add dirs ∅).1.tracked.lookup d =
        (if d ∈ dirs then some (trackedAfterAdd add d) else none) ∧
      (Watch.setup none add dirs ∅).2.lookup d =
        (if d ∈ dirs then errorAfterAdd add d else none) := by
    intro d
    obtain ⟨h1, h2⟩ := update_lookup add { tracked := untrackedAll dirs } ∅ [] d
    simp only [Watch.setup]
    rw [h1, h2, lookup_untrackedAll]
    by_cases hd : d ∈ dirs
    · simp [hd]
    · simp [hd]
  constructor
  · intro d b hb
    obtain ⟨h1, h2⟩ := hlook d
    rw [h1] at hb
    rw [h2]
    by_cases hd : d ∈ dirs
    · simp only [hd, if_true, Option.some.injEq] at hb ⊢
      rw [← hb]
      unfold trackedAfterAdd errorAfterAdd
      cases add d <;> simp
    · simp [hd] at hb
  · intro d hd
    exact ⟨trackedAfterAdd add d, by rw [(hlook d).1]; simp [hd]⟩

theorem trackedIffNoError_runUpdate (st : Watch × GoMap Error) (call : UpdateCall)
    (h : TrackedIffNoError st) : TrackedIffNoError (runUpdate st call) := by
  intro d b hb
  obtain ⟨h1, h2⟩ := update_lookup call.add st.1 st.2 call.removed d
  simp only [runUpdate] at hb ⊢
  rw [h1] at hb
  rw [h2]
  by_cases hr : d ∈ call.removed
  · simp only [hr, if_true, Option.some.injEq] at hb ⊢
    rw [← hb]
    simp
  · by_cases hf : st.1.tracked.lookup d = some false
    · simp only [hr, hf, if_false, if_true, Option.some.injEq] at hb ⊢
      rw [← hb]
      unfold trackedAfterAdd errorAfterAdd
      cases call.add d <;> simp
    · simp only [hr, hf, if_false] at hb ⊢
      exact h d b hb

theorem known_runUpdate (st : Watch × GoMap Error) (call : UpdateCall) (d : String)
    (h : ∃ b, st.1.tracked.lookup d = some b) :
    ∃ b, (runUpdate st call).1.tracked.lookup d = some b := by
  obtain ⟨b, hb⟩ := h
  obtain ⟨h1, -⟩ := update_lookup call.add st.1 st.2 call.removed d
  simp only [runUpdate]
  rw [h1]
  by_cases hr : d ∈ call.removed
  · exact ⟨false, by simp [hr]⟩
  · by_cases hf : st.1.tracked.lookup d = some false
    · exact ⟨trackedAfterAdd call.add d, by simp [hr, hf]⟩
    · refine ⟨b, ?_⟩
      rw [if_neg hr, if_neg hf]
      exact hb

theorem trackedIffNoError_runUpdates (calls : List UpdateCall) (st : Watch × GoMap Error)
    (d : String) (h : TrackedIffNoError st) (hk : ∃ b, st.1.tracked.lookup d = some b) :
    TrackedIffNoError (runUpdates st calls) ∧
      ∃ b, (runUpdates st calls).1.tracked.lookup d = some b := by
  induction calls generalizing st with
  | nil => exact ⟨h, hk⟩
  | cons call calls ih =>
    exact ih (runUpdate st call) (trackedIffNoError_runUpdate st call h)
      (known_runUpdate st call d hk)

/-- C18: after `watch.setup` with a watcher created and an empty directory-error map,
followed by any sequence of `watch.update` calls (whatever the registrations answer in
each call and whatever paths are passed as removed, configured directories in
particular), every configured directory is tracked if and only if the directory-error
map has no entry for it. -/
theorem C18_tracked_iff_no_error (dirs : List String) (add : String → Option String)
    (calls : List UpdateCall) (d : String) (hd : d ∈ dirs) :
    (runUpdates (Watch.setup none add dirs ∅) calls).1.tracked.lookup d = some true ↔
      (runUpdates (Watch.setup none add dirs ∅) calls).2.lookup d = none := by
  obtain ⟨hinv, hknown⟩ := trackedIffNoError_setup add dirs
  obtain ⟨hinv2, b, hb⟩ :=
    trackedIffNoError_runUpdates calls _ d hinv (hknown d hd)
  have := hinv2 d b hb
  rw [hb]
  constructor
  · intro h
    exact this.mp (Option.some.inj h)
  · intro h
    rw [this.mpr h]

/-- C18 at two configured directories of which `/run/cdi` is missing at setup, after an
update in which it can be registered and `/etc/cdi` is passed as removed. -/
theorem C18_tracked_iff_no_error_witness :
    (runUpdates (Watch.setup none exAddRunMissing ["/etc/cdi", "/run/cdi"] ∅)
        [{ add := fun _ => none, removed := ["/etc/cdi"] }]).1.tracked.lookup "/etc/cdi" =
        some true ↔
      (runUpdates (Watch.setup none exAddRunMissing ["/etc/cdi", "/run/cdi"] ∅)
        [{ add := fun _ => none, removed := ["/etc/cdi"] }]).2.lookup "/etc/cdi" = none :=
  C18_tracked_iff_no_error ["/etc/cdi", "/run/cdi"] exAddRunMissing
    [{ add := fun _ => none, removed := ["/etc/cdi"] }] "/etc/cdi" (by decide)

/-! ## WriteSpec and the destination scheme -/

theorem getD_last (l : List String) (dir : String) (h : l.getLast? = some dir) :
    l.getD (l.length - 1) "" = dir := by
  have hne : l ≠ [] := by
    intro hnil
    rw [hnil] at h
    cases h
  rw [List.getLast?_eq_getLast l hne] at h
  have h2 := Option.some.inj h
  rw [List.getLast_eq_getElem] at h2
  rw [List.getD_eq_getElem?_getD, List.getElem?_eq_getElem (by
    have := List.length_pos.mpr hne
    omega)]
  simpa using h2

/-- C11: with an empty directory list `WriteSpec` fails with an error and neither creates
nor writes a descriptor; otherwise it creates the descriptor with `NewSpec` at priority
`len(specDirs) - 1` and at the path that joins the last directory with the name, with
`.json` appended exactly when the extension of the joined path is neither `.json` nor
`.yaml`, and it writes the created descriptor, returning what `Write` returns (or the
error of `NewSpec`, without writing, when the descriptor is rejected). -/
theorem C11_write_target {Raw : Type} (wenv : WriteEnv Raw) (c : Cache) (raw : Raw)
    (name : String) :
    (c.specDirs = [] →
      (c.WriteSpec wenv raw name).err = some Error.noSpecDirs ∧
        (c.WriteSpec wenv raw name).created = none ∧
        (c.WriteSpec wenv raw name).written = none) ∧
    (∀ dir, c.specDirs.getLast? = some dir →
      ∃ path, (c.WriteSpec wenv raw name).created = some (path, (c.specDirs.length : Int) - 1) ∧
        ((filepathExt (wenv.join dir name) = ".json" ∨
            filepathExt (wenv.join dir name) = ".yaml") → path = wenv.join dir name) ∧
        ((filepathExt (wenv.join dir name) ≠ ".json" ∧
            filepathExt (wenv.join dir name) ≠ ".yaml") →
          path = wenv.join dir name ++ ".json") ∧
        (∀ spec, wenv.newSpec raw path ((c.specDirs.length : Int) - 1) = Except.ok spec →
          (c.WriteSpec wenv raw name).written = some (spec, true) ∧
            (c.WriteSpec wenv raw name).err = wenv.write spec true) ∧
        (∀ e, wenv.newSpec raw path ((c.specDirs.length : Int) - 1) = Except.error e →
          (c.WriteSpec wenv raw name).written = none ∧
            (c.WriteSpec wenv raw name).err = some e)) := by
  constructor
  · intro h
    unfold Cache.WriteSpec
    simp [h]
  · intro dir hdir
    have hlen : ¬ c.specDirs.length = 0 := by
      intro h0
      rw [List.length_eq_zero.mp h0] at hdir
      cases hdir
    have hd := getD_last c.specDirs dir hdir
    unfold Cache.WriteSpec
    rw [if_neg hlen, hd]
    by_cases hext : filepathExt (wenv.join dir name) ≠ ".json" ∧
        filepathExt (wenv.join dir name) ≠ ".yaml"
    · refine ⟨wenv.join dir name ++ ".json", ?_, ?_, fun _ => rfl, ?_, ?_⟩
      · simp only [if_pos hext]
        split <;> rfl
      · rintro (h | h)
        · exact absurd h hext.1
        · exact absurd h hext.2
      · intro spec hs
        simp [if_pos hext, hs]
      · intro e he
        simp [if_pos hext, he]
    · refine ⟨wenv.join dir name, ?_, fun _ => rfl, fun h => absurd h hext, ?_, ?_⟩
      · simp only [if_neg hext]
        split <;> rfl
      · intro spec hs
        simp [if_neg hext, hs]
      · intro e he
        simp [if_neg hext, he]

theorem eq_of_take_three (l : List Char) (a b c : Char) (h : l.take 3 = [a, b, c]) :
    ∃ r, l = a :: b :: c :: r := by
  match l, h with
  | x :: y :: z :: r, h =>
    simp only [List.take_succ_cons, List.take_zero, List.cons.injEq, and_true] at h
    obtain ⟨h1, h2, h3⟩ := h
    exact ⟨r, by rw [h1, h2, h3]⟩

theorem dropWhile_append_stop (p : Char → Bool) (cs : List Char) (x : Char) (r : List Char)
    (hcs : ∀ ch ∈ cs, p ch = true) (hx : p x = false) :
    (cs ++ x :: r).dropWhile p = x :: r := by
  induction cs with
  | nil => simp [List.dropWhile, hx]
  | cons ch cs ih =>
    have hch : p ch = true := hcs ch (List.mem_cons_self _ _)
    simp only [List.cons_append, List.dropWhile_cons, hch, if_true]
    exact ih (fun y hy => hcs y (List.mem_cons_of_mem _ hy))

theorem matchScheme_iff (dest : String) : matchScheme dest = true ↔ HasScheme dest := by
  unfold matchScheme HasScheme
  constructor
  · intro h
    cases hd : dest.data with
    | nil => simp [hd] at h
    | cons ch rest =>
      simp only [hd, Bool.and_eq_true, beq_iff_eq] at h
      obtain ⟨hl, ht⟩ := h
      obtain ⟨r, hr⟩ := eq_of_take_three _ _ _ _ ht
      refine ⟨ch, rest.takeWhile isSchemeChar, r, ?_, hl, ?_⟩
      · rw [← hr, List.takeWhile_append_dropWhile]
      · intro c hc
        exact (List.mem_takeWhile_imp hc)
  · rintro ⟨l, cs, rest, hd, hl, hcs⟩
    simp only [hd, Bool.and_eq_true, beq_iff_eq]
    refine ⟨hl, ?_⟩
    rw [dropWhile_append_stop isSchemeChar cs ':' _ hcs (by decide)]
    rfl

/-- C15: the destination given to `podman system connection add` is parsed with `ssh://`
prepended if and only if it does not begin with a URL scheme (a letter, then any number
of letters, digits, `+`, `.` or `-`, then `://`); a destination with a scheme is parsed
unchanged; so a destination without a colon, such as `[user@]hostname`, gets the ssh
scheme. -/
theorem C15_default_ssh_scheme (dest : String) :
    (parsedDestination dest = "ssh://" ++ dest ↔ ¬ HasScheme dest) ∧
      (HasScheme dest → parsedDestination dest = dest) ∧
      (':' ∉ dest.data → parsedDestination dest = "ssh://" ++ dest) := by
  have hne : dest ≠ "ssh://" ++ dest := by
    intro h
    have hlen := congrArg String.length h
    rw [String.length_append] at hlen
    have h6 : ("ssh://" : String).length = 6 := by decide
    omega
  have hiff : parsedDestination dest = "ssh://" ++ dest ↔ ¬ HasScheme dest := by
    rw [← matchScheme_iff]
    unfold parsedDestination
    by_cases hm : matchScheme dest = true
    · simp only [hm, if_true, not_true_eq_false, iff_false]
      exact hne
    · simp [hm]
  refine ⟨hiff, ?_, ?_⟩
  · intro h
    unfold parsedDestination
    rw [if_pos ((matchScheme_iff dest).mpr h)]
  · intro hcolon
    apply hiff.mpr
    rintro ⟨l, cs, rest, hd, -, -⟩
    apply hcolon
    rw [hd]
    simp

end CDI
